import Mathlib

/-!
Shallow embedding of the 2048 grid engine from `src/x2048/2048.cc`
(class `x2048::Grid`).

Modelling conventions:
* `storage_t = i64` cell values are modelled as `Int` (the claims under
  study never approach the 64-bit range).  `Grid::slide` however is
  declared `int`, so the doubled value returned by its merge branch is
  truncated to 32 bits; this is modelled by `toInt32` on the returned
  value (the cell itself keeps the full 64-bit value).
* The С++ grid is a raw array `mGrid[mWidth*mHeight]` indexed by
  `x + y * mWidth`; we model it as `cells : List Int` with the same
  index arithmetic.
* `std::out_of_range` thrown by `Grid::get` is modelled by
  `Except GridError`.  Inside `Grid::slide` the source code *writes*
  through references previously obtained from bounds-checked reads, so
  those writes can never be out of range; they are modelled by the
  total function `Grid.setCell`, which is a no-op out of range.
* The random engine draws (`pos_dist(rand)`, `false_1i4(rand)`) are
  modelled as explicit inputs (a list of position draws, three flip
  draws in `[0,4)`).
-/

set_option maxHeartbeats 1000000
set_option maxRecDepth 100000

inductive DIRECTION where
  | UP
  | DOWN
  | RIGHT
  | LEFT
deriving DecidableEq

inductive GridError where
  | outOfRange
deriving DecidableEq

/-- State of `x2048::Grid`: dimensions, the cell array (row-major,
index `x + y * width`), and the accumulated score `mScore`. -/
structure Grid where
  width : Nat
  height : Nat
  cells : List Int
  score : Int
deriving DecidableEq

/-- The bounds test of `Grid::get`:
`x >= mWidth || x < 0 || y < 0 || y >= mHeight`. -/
def Grid.oob (g : Grid) (x y : Int) : Prop :=
  (g.width : Int) ≤ x ∨ x < 0 ∨ y < 0 ∨ (g.height : Int) ≤ y

instance (g : Grid) (x y : Int) : Decidable (g.oob x y) := by
  unfold Grid.oob
  infer_instance

/-- Flat index `x + y * mWidth` used by `Grid::get`. -/
def Grid.idx (g : Grid) (x y : Int) : Nat :=
  (x + y * (g.width : Int)).toNat

/-- `Grid::get(x, y)`: bounds-checked cell read. -/
def Grid.get (g : Grid) (x y : Int) : Except GridError Int :=
  if g.oob x y then .error .outOfRange
  else .ok (g.cells.getD (g.idx x y) 0)

/-- Bounds-checked write, as performed through the reference returned
by `Grid::get`; total (a no-op out of range, a case the source never
reaches because every write site first obtained the reference from a
successful bounds-checked read). -/
def Grid.setCell (g : Grid) (x y : Int) (v : Int) : Grid :=
  if g.oob x y then g
  else { g with cells := g.cells.set (g.idx x y) v }

/-- `Grid::put(x, y, val)`, which is `get(x, y) = val`. -/
def Grid.put (g : Grid) (x y : Int) (v : Int) : Except GridError Grid :=
  if g.oob x y then .error .outOfRange
  else .ok (g.setCell x y v)

/-- `Grid::is_full`: true iff no cell of the `width*height` array is 0. -/
def Grid.is_full (g : Grid) : Bool :=
  !((List.range (g.width * g.height)).any (fun i => g.cells.getD i 0 == 0))

/-- One neighbour test of `Grid::is_fail`: C++
`if( cond && cur == get(nx, ny) ) return false;` with short-circuit
evaluation, continuing with `next` otherwise. -/
def neighCheck (g : Grid) (cond : Prop) [Decidable cond] (nx ny : Int)
    (cur : Int) (next : Except GridError Bool) : Except GridError Bool :=
  if cond then
    match g.get nx ny with
    | .error e => .error e
    | .ok t => if cur = t then .ok false else next
  else next

/-- Body of the double loop of `Grid::is_fail` at cell `(x, y)`: the
four neighbour tests in source order, with the source's bounds
(`y < width() - 1` guarding `get(x, y+1)` and `x < height() - 1`
guarding `get(x+1, y)`, exactly as written in the C++). -/
def failCheckAt (g : Grid) (x y : Int) : Except GridError Bool :=
  match g.get x y with
  | .error e => .error e
  | .ok cur =>
    neighCheck g (0 < y) x (y - 1) cur
      (neighCheck g (y < (g.width : Int) - 1) x (y + 1) cur
        (neighCheck g (0 < x) (x - 1) y cur
          (neighCheck g (x < (g.height : Int) - 1) (x + 1) y cur
            (.ok true))))

/-- The double loop of `Grid::is_fail` over the scan order, with the
early `return false` / exception propagation. -/
def failScan (g : Grid) : List (Int × Int) → Except GridError Bool
  | [] => .ok true
  | p :: rest =>
    match failCheckAt g p.1 p.2 with
    | .error e => .error e
    | .ok true => failScan g rest
    | .ok false => .ok false

/-- Scan order of `Grid::is_fail`: `x` outer over `[0, width)`, `y`
inner over `[0, height)`. -/
def failScanOrder (w h : Nat) : List (Int × Int) :=
  (List.range w).flatMap
    (fun (x : Nat) => (List.range h).map (fun (y : Nat) => ((x : Int), (y : Int))))

/-- `Grid::is_fail`: `false` when not full, otherwise scans every cell
for an equal neighbour. -/
def Grid.is_fail (g : Grid) : Except GridError Bool :=
  if !g.is_full then .ok false
  else failScan g (failScanOrder g.width g.height)

/-- Coordinate shift of `Grid::__get_dire`. -/
def direShift (x y : Int) (d : DIRECTION) (coord : Int) : Int × Int :=
  match d with
  | .UP => (x, y - coord)
  | .DOWN => (x, y + coord)
  | .RIGHT => (x + coord, y)
  | .LEFT => (x - coord, y)

/-- `Grid::__get_dire(x, y, dire, coord)` as a read. -/
def Grid.getDire (g : Grid) (x y : Int) (d : DIRECTION) (coord : Int) :
    Except GridError Int :=
  g.get (direShift x y d coord).1 (direShift x y d coord).2

/-- Write through the reference returned by `Grid::__get_dire`. -/
def Grid.setDire (g : Grid) (x y : Int) (d : DIRECTION) (coord : Int)
    (v : Int) : Grid :=
  g.setCell (direShift x y d coord).1 (direShift x y d coord).2 v

/-- The `catch(std::out_of_range)` branch of `Grid::slide`: with
`coord > 1` move the source value into the last probed empty position
and return 0, otherwise report no motion (-1). -/
def slideStop (g : Grid) (x y : Int) (d : DIRECTION) (cur : Int)
    (coord : Int) : Int × Grid :=
  if 1 < coord then (0, (g.setDire x y d (coord - 1) cur).setCell x y 0)
  else (-1, g)

/-- Two's-complement wrap to the 32-bit `int` return type of
`Grid::slide`: the merge branch computes the doubled value in the
64-bit cell but returns it through `int`, so values at or above `2^31`
wrap (e.g. `2^31` becomes `-2^31`). -/
def toInt32 (n : Int) : Int :=
  (n + 2 ^ 31) % 2 ^ 32 - 2 ^ 31

/-- The `while(true)` loop of `Grid::slide`.  `cur` is the value read
at the source cell; the loop probes outward at growing `coord`.  An
out-of-range probe and a blocking cell (non-zero, with `skip`
set or a different value) both land in the catch branch `slideStop`,
exactly as the C++ throws and catches `std::out_of_range` for both.
The merge branch writes the full doubled value into the (64-bit) cell
but returns it through the function's `int` return type, hence the
`toInt32` wrap on the returned value only.  The loop always terminates
within `width + height` probes (the probe leaves the grid); `fuel`
makes that termination structural. -/
def slideLoop (g : Grid) (x y : Int) (d : DIRECTION) (skip : Bool)
    (cur : Int) (coord : Int) : Nat → Int × Grid
  | 0 => (-1, g)
  | fuel + 1 =>
    match g.getDire x y d coord with
    | .error _ => slideStop g x y d cur coord
    | .ok target =>
      if target ≠ 0 then
        if skip then slideStop g x y d cur coord
        else if target = cur then
          (toInt32 (2 * cur), (g.setDire x y d coord (2 * cur)).setCell x y 0)
        else slideStop g x y d cur coord
      else slideLoop g x y d skip cur (coord + 1) fuel

/-- `Grid::slide(x, y, dire, skip_merge)`.  Propagates the (uncaught)
out-of-range failure of the initial `get(x, y)`; returns -1 on an
empty source cell; otherwise runs the probe loop from `coord = 1`. -/
def Grid.slide (g : Grid) (x y : Int) (d : DIRECTION) (skip : Bool) :
    Except GridError (Int × Grid) :=
  match g.get x y with
  | .error e => .error e
  | .ok cur =>
    if cur = 0 then .ok (-1, g)
    else .ok (slideLoop g x y d skip cur 1 (g.width + g.height))

/-- Loop state of `Grid::only_merge`: the grid plus the locals
`new_score`, `skip_merge`, `have_motions`. -/
structure MState where
  grid : Grid
  newScore : Int
  skipMerge : Bool
  haveMotions : Bool
deriving DecidableEq

/-- One iteration of the inner loop of `Grid::only_merge`:
`r = slide(x, y, dire, skip_merge)`, then
`if (r > 0) { skip_merge = true; new_score += r; }` and
`if (r >= 0) have_motions = true;`.  A (unreachable) out-of-range
failure of `slide` leaves the state unchanged. -/
def mergeStep (d : DIRECTION) (st : MState) (p : Int × Int) : MState :=
  match st.grid.slide p.1 p.2 d st.skipMerge with
  | .error _ => st
  | .ok (r, g') =>
    { grid := g'
      newScore := if 0 < r then st.newScore + r else st.newScore
      skipMerge := if 0 < r then true else st.skipMerge
      haveMotions := if 0 ≤ r then true else st.haveMotions }

/-- One line of the scan of `Grid::only_merge`: `skip_merge = false;`
then the inner loop over the line's cells. -/
def foldLine (d : DIRECTION) (st : MState) (line : List (Int × Int)) : MState :=
  line.foldl (mergeStep d) { st with skipMerge := false }

/-- The scan order of `Grid::only_merge`: for UP/DOWN one line per
column `x` (inner `y` ascending resp. descending), for RIGHT/LEFT one
line per row `y` (inner `x` descending resp. ascending). -/
def scanLines (d : DIRECTION) (w h : Nat) : List (List (Int × Int)) :=
  match d with
  | .UP =>
    (List.range w).map
      (fun (x : Nat) => (List.range h).map (fun (y : Nat) => ((x : Int), (y : Int))))
  | .DOWN =>
    (List.range w).map (fun (x : Nat) =>
      (List.range h).map (fun (yi : Nat) => ((x : Int), (h : Int) - 1 - (yi : Int))))
  | .RIGHT =>
    (List.range h).map (fun (y : Nat) =>
      (List.range w).map (fun (xi : Nat) => ((w : Int) - 1 - (xi : Int), (y : Int))))
  | .LEFT =>
    (List.range h).map
      (fun (y : Nat) => (List.range w).map (fun (x : Nat) => ((x : Int), (y : Int))))

/-- The return convention of `Grid::only_merge`: the final value is
`new_score` when any motion happened, `-1` otherwise; the `Bool` is
`*have_motions_out`. -/
def mergeFinish (st : MState) : Int × Bool × Grid :=
  (if st.haveMotions then st.newScore else -1, st.haveMotions, st.grid)

/-- `Grid::only_merge(dire, have_motions_out)`: returns
(return value, `*have_motions_out`, the updated grid). -/
def Grid.only_merge (g : Grid) (d : DIRECTION) : Int × Bool × Grid :=
  mergeFinish ((scanLines d g.width g.height).foldl (foldLine d) ⟨g, 0, false, false⟩)

/-- `Grid::merge(dire, have_motions_out)`: runs `only_merge` and adds
the returned increase to `mScore` when it is positive. -/
def Grid.merge (g : Grid) (d : DIRECTION) : Int × Bool × Grid :=
  ((g.only_merge d).1, (g.only_merge d).2.1,
    if 0 < (g.only_merge d).1 then
      { (g.only_merge d).2.2 with score := (g.only_merge d).2.2.score + (g.only_merge d).1 }
    else (g.only_merge d).2.2)

/-- The retry loop of `Grid::generate`: successive draws of
`pos_dist(rand)` until one hits an empty cell, which is then set to
`targetval`; `none` models the (probability-zero) case that the given
draw sequence never hits an empty cell. -/
def generateLoop (g : Grid) (targetval : Int) : List Nat → Option Grid
  | [] => none
  | p :: rest =>
    if g.cells.getD p 0 = 0 then some { g with cells := g.cells.set p targetval }
    else generateLoop g targetval rest

/-- `Grid::generate(targetval)` with the random draws made explicit:
returns `true` (grid unchanged) when the grid is full, otherwise
places `targetval` on the first drawn empty cell and returns `false`. -/
def Grid.generate (g : Grid) (targetval : Int) (draws : List Nat) :
    Option (Bool × Grid) :=
  if g.is_full then some (true, g)
  else (generateLoop g targetval draws).map (fun g' => (false, g'))

/-- The tile value chosen by the cascading flips of
`Grid::generate_randomly`; each flip is a draw of
`uniform_int_distribution<int>(0, 3)` and `!false_1i4(rand)` holds
exactly when the draw is 0. -/
def chosenTile (f1 f2 f3 : Nat) : Int :=
  if f1 = 0 then
    if f2 = 0 then
      if f3 = 0 then 16 else 8
    else 4
  else 2

/-- `Grid::generate_randomly()` with the three flip draws and the
position draws made explicit. -/
def Grid.generate_randomly (g : Grid) (f1 f2 f3 : Nat) (draws : List Nat) :
    Option (Bool × Grid) :=
  if f1 = 0 then
    if f2 = 0 then
      if f3 = 0 then g.generate 16 draws
      else g.generate 8 draws
    else g.generate 4 draws
  else g.generate 2 draws

/-- Well-formedness: the cell array has exactly `width * height`
entries, as always holds for grids built by `Grid::reset`. -/
def Grid.WF (g : Grid) : Prop :=
  g.cells.length = g.width * g.height

/-- Sum of all cell values. -/
def gridSum (g : Grid) : Int :=
  g.cells.sum

/-- Number of non-zero cells. -/
def countNonZero (l : List Int) : Nat :=
  l.countP (fun c => c != 0)

/-- A grid as produced by `Grid::reset` followed by writes: score 0. -/
def mkGrid (w h : Nat) (cells : List Int) : Grid :=
  ⟨w, h, cells, 0⟩

/-- 4×4 grid, all cells empty. -/
def gEmpty44 : Grid := mkGrid 4 4 (List.replicate 16 0)

/-- 4×4 grid whose first row is the line `[2,2,2,2]`, the rest empty. -/
def gLine2222 : Grid := mkGrid 4 4 ([2, 2, 2, 2] ++ List.replicate 12 0)

/-- 4×4 grid whose first row is the line `[2,2,2,0]`, the rest empty. -/
def gLine2220 : Grid := mkGrid 4 4 ([2, 2, 2, 0] ++ List.replicate 12 0)

/-- Full 4×6 grid (the dimensions the game itself plays on:
`Game(..., width = 4, height = 6)`) in a 2/4 checkerboard, so no two
4-adjacent cells are equal. -/
def gCheck46 : Grid :=
  mkGrid 4 6 ((List.range 24).map (fun i => if (i % 4 + i / 4) % 2 = 0 then 2 else 4))

/-- Full 1×1 grid. -/
def gFull11 : Grid := mkGrid 1 1 [2]

/-- 2×2 grid with one occupied cell. -/
def gTwo22 : Grid := mkGrid 2 2 [2, 0, 0, 0]

/-- 4×4 grid with one horizontally adjacent pair of 2-tiles at
`(1,2)` and `(2,2)`, everything else empty. -/
def gPairH : Grid := mkGrid 4 4 [0, 0, 0, 0, 0, 0, 0, 0, 0, 2, 2, 0, 0, 0, 0, 0]

/-- 4×4 grid with one vertically adjacent pair of 2-tiles at
`(2,1)` and `(2,2)`, everything else empty. -/
def gPairV : Grid := mkGrid 4 4 [0, 0, 0, 0, 0, 0, 2, 0, 0, 0, 2, 0, 0, 0, 0, 0]

/-- 4×4 grid with one horizontally adjacent pair of `2^30` tiles at
`(1,2)` and `(2,2)`, everything else empty: their merged value `2^31`
does not fit the `int` returned by `Grid::slide`. -/
def gPairBig : Grid :=
  mkGrid 4 4 [0, 0, 0, 0, 0, 0, 0, 0, 0, 2 ^ 30, 2 ^ 30, 0, 0, 0, 0, 0]

/-- The cell array holds `v` exactly at the (distinct or equal)
indices `i1` and `i2` and zero everywhere else. -/
def pairCells (cells : List Int) (i1 i2 : Nat) (v : Int) : Prop :=
  ∀ j : Nat, j < cells.length → cells.getD j 0 = if j = i1 ∨ j = i2 then v else 0

/-- The cell array holds `v` exactly at index `i`, zero elsewhere. -/
def oneCell (cells : List Int) (i : Nat) (v : Int) : Prop :=
  ∀ j : Nat, j < cells.length → cells.getD j 0 = if j = i then v else 0

/-! ## Basic lemmas: bounds, indexing, writes -/

theorem Grid.oob_iff (g : Grid) (x y : Int) :
    g.oob x y ↔ ¬(0 ≤ x ∧ x < (g.width : Int) ∧ 0 ≤ y ∧ y < (g.height : Int)) := by
  unfold Grid.oob
  omega

theorem listGetD_set_self {l : List Int} {i : Nat} (v : Int) (h : i < l.length) :
    (l.set i v).getD i 0 = v := by
  simp [List.getD_eq_getElem?_getD, List.getElem?_set_self', List.getElem?_eq_getElem h]

theorem listGetD_set_ne {l : List Int} {i j : Nat} (v : Int) (h : i ≠ j) :
    (l.set i v).getD j 0 = l.getD j 0 := by
  simp [List.getD_eq_getElem?_getD, List.getElem?_set_ne h]

theorem Grid.idx_lt (g : Grid) {x y : Int} (hwf : g.WF) (h : ¬ g.oob x y) :
    g.idx x y < g.cells.length := by
  rw [g.oob_iff, not_not] at h
  obtain ⟨hx0, hxw, hy0, hyh⟩ := h
  unfold Grid.WF at hwf
  unfold Grid.idx
  have hwpos : (0 : Int) < g.width := by omega
  have h1 : y * (g.width : Int) ≤ ((g.height : Int) - 1) * g.width :=
    mul_le_mul_of_nonneg_right (by omega) (by omega)
  have h2 : x + y * (g.width : Int) < (g.width : Int) * (g.height : Int) := by nlinarith
  have h3 : (0 : Int) ≤ x + y * (g.width : Int) := by nlinarith
  rw [hwf]
  have hne : g.width * g.height ≠ 0 := by
    rcases Nat.eq_zero_or_pos (g.width * g.height) with h0 | h0
    · exfalso
      have := Nat.mul_eq_zero.mp h0
      omega
    · omega
  rw [Int.toNat_lt' hne]
  push_cast
  linarith

theorem Grid.idx_inj (g : Grid) {x1 y1 x2 y2 : Int}
    (h1 : ¬ g.oob x1 y1) (h2 : ¬ g.oob x2 y2)
    (he : g.idx x1 y1 = g.idx x2 y2) : x1 = x2 ∧ y1 = y2 := by
  rw [g.oob_iff, not_not] at h1 h2
  obtain ⟨hx1, hxw1, hy1, hyh1⟩ := h1
  obtain ⟨hx2, hxw2, hy2, hyh2⟩ := h2
  unfold Grid.idx at he
  have hwpos : (0 : Int) < g.width := by omega
  have n1 : (0 : Int) ≤ x1 + y1 * g.width := by nlinarith
  have n2 : (0 : Int) ≤ x2 + y2 * g.width := by nlinarith
  have heq : x1 + y1 * (g.width : Int) = x2 + y2 * g.width := by
    have := congrArg (fun n : Nat => (n : Int)) he
    simpa [Int.toNat_of_nonneg n1, Int.toNat_of_nonneg n2] using this
  have hm1 : (x1 + y1 * (g.width : Int)) % g.width = x1 := by
    rw [Int.add_mul_emod_self]
    exact Int.emod_eq_of_lt hx1 hxw1
  have hm2 : (x2 + y2 * (g.width : Int)) % g.width = x2 := by
    rw [Int.add_mul_emod_self]
    exact Int.emod_eq_of_lt hx2 hxw2
  have hx : x1 = x2 := by rw [← hm1, ← hm2, heq]
  refine ⟨hx, ?_⟩
  have hy : y1 * (g.width : Int) = y2 * g.width := by omega
  exact mul_right_cancel₀ (by omega) hy

theorem Grid.get_of_oob {g : Grid} {x y : Int} (h : g.oob x y) :
    g.get x y = .error .outOfRange := by
  unfold Grid.get
  simp [h]

theorem Grid.get_of_not_oob {g : Grid} {x y : Int} (h : ¬ g.oob x y) :
    g.get x y = .ok (g.cells.getD (g.idx x y) 0) := by
  unfold Grid.get
  simp [h]

theorem Grid.get_ok_inv {g : Grid} {x y : Int} {c : Int}
    (h : g.get x y = .ok c) :
    ¬ g.oob x y ∧ g.cells.getD (g.idx x y) 0 = c := by
  unfold Grid.get at h
  by_cases ho : g.oob x y
  · simp [ho] at h
  · simp [ho] at h
    refine ⟨ho, ?_⟩
    simpa [List.getD_eq_getElem?_getD] using h

theorem Grid.setCell_of_not_oob {g : Grid} {x y : Int} (v : Int) (h : ¬ g.oob x y) :
    g.setCell x y v = { g with cells := g.cells.set (g.idx x y) v } := by
  unfold Grid.setCell
  simp [h]

theorem Grid.setCell_of_oob {g : Grid} {x y : Int} (v : Int) (h : g.oob x y) :
    g.setCell x y v = g := by
  unfold Grid.setCell
  simp [h]

@[simp] theorem Grid.setCell_width (g : Grid) (x y v : Int) :
    (g.setCell x y v).width = g.width := by
  unfold Grid.setCell
  split <;> rfl

@[simp] theorem Grid.setCell_height (g : Grid) (x y v : Int) :
    (g.setCell x y v).height = g.height := by
  unfold Grid.setCell
  split <;> rfl

@[simp] theorem Grid.setCell_score (g : Grid) (x y v : Int) :
    (g.setCell x y v).score = g.score := by
  unfold Grid.setCell
  split <;> rfl

@[simp] theorem Grid.setCell_cells_length (g : Grid) (x y v : Int) :
    (g.setCell x y v).cells.length = g.cells.length := by
  unfold Grid.setCell
  split <;> simp

@[simp] theorem Grid.setDire_width (g : Grid) (x y : Int) (d : DIRECTION) (coord v : Int) :
    (g.setDire x y d coord v).width = g.width := by
  unfold Grid.setDire
  simp

@[simp] theorem Grid.setDire_height (g : Grid) (x y : Int) (d : DIRECTION) (coord v : Int) :
    (g.setDire x y d coord v).height = g.height := by
  unfold Grid.setDire
  simp

@[simp] theorem Grid.setDire_score (g : Grid) (x y : Int) (d : DIRECTION) (coord v : Int) :
    (g.setDire x y d coord v).score = g.score := by
  unfold Grid.setDire
  simp

@[simp] theorem Grid.setDire_cells_length (g : Grid) (x y : Int) (d : DIRECTION) (coord v : Int) :
    (g.setDire x y d coord v).cells.length = g.cells.length := by
  unfold Grid.setDire
  simp

/-- Shape facts preserved by every grid update of the engine. -/
def sameShape (g g' : Grid) : Prop :=
  g'.width = g.width ∧ g'.height = g.height ∧ g'.score = g.score ∧
    g'.cells.length = g.cells.length

theorem sameShape_refl (g : Grid) : sameShape g g :=
  ⟨rfl, rfl, rfl, rfl⟩

theorem sameShape_trans {g1 g2 g3 : Grid} (h1 : sameShape g1 g2)
    (h2 : sameShape g2 g3) : sameShape g1 g3 := by
  obtain ⟨a1, b1, c1, d1⟩ := h1
  obtain ⟨a2, b2, c2, d2⟩ := h2
  exact ⟨a2.trans a1, b2.trans b1, c2.trans c1, d2.trans d1⟩

theorem sameShape_setCell (g : Grid) (x y v : Int) :
    sameShape g (g.setCell x y v) :=
  ⟨by simp, by simp, by simp, by simp⟩

theorem sameShape_setDire (g : Grid) (x y : Int) (d : DIRECTION) (coord v : Int) :
    sameShape g (g.setDire x y d coord v) :=
  ⟨by simp, by simp, by simp, by simp⟩

/-! ### Step equations for the slide loop -/

theorem slideLoop_succ (g : Grid) (x y : Int) (d : DIRECTION) (skip : Bool)
    (cur coord : Int) (n : Nat) :
    slideLoop g x y d skip cur coord (n + 1) =
      match g.getDire x y d coord with
      | .error _ => slideStop g x y d cur coord
      | .ok target =>
        if target ≠ 0 then
          if skip then slideStop g x y d cur coord
          else if target = cur then
            (toInt32 (2 * cur), (g.setDire x y d coord (2 * cur)).setCell x y 0)
          else slideStop g x y d cur coord
        else slideLoop g x y d skip cur (coord + 1) n := rfl

theorem slideLoop_of_error {g : Grid} {x y : Int} {d : DIRECTION} {skip : Bool}
    {cur coord : Int} {n : Nat} {e : GridError}
    (hp : g.getDire x y d coord = .error e) :
    slideLoop g x y d skip cur coord (n + 1) = slideStop g x y d cur coord := by
  rw [slideLoop_succ, hp]

theorem slideLoop_of_zero {g : Grid} {x y : Int} {d : DIRECTION} {skip : Bool}
    {cur coord : Int} {n : Nat}
    (hp : g.getDire x y d coord = .ok 0) :
    slideLoop g x y d skip cur coord (n + 1) =
      slideLoop g x y d skip cur (coord + 1) n := by
  rw [slideLoop_succ, hp]
  simp

theorem slideLoop_of_skip {g : Grid} {x y : Int} {d : DIRECTION}
    {cur coord target : Int} {n : Nat}
    (hp : g.getDire x y d coord = .ok target) (ht : target ≠ 0) :
    slideLoop g x y d true cur coord (n + 1) = slideStop g x y d cur coord := by
  rw [slideLoop_succ, hp]
  simp [ht]

theorem slideLoop_of_block {g : Grid} {x y : Int} {d : DIRECTION}
    {cur coord target : Int} {n : Nat}
    (hp : g.getDire x y d coord = .ok target) (ht : target ≠ 0)
    (hne : target ≠ cur) :
    slideLoop g x y d false cur coord (n + 1) = slideStop g x y d cur coord := by
  rw [slideLoop_succ, hp]
  simp [ht, hne]

theorem slideLoop_of_merge {g : Grid} {x y : Int} {d : DIRECTION}
    {cur coord target : Int} {n : Nat}
    (hp : g.getDire x y d coord = .ok target) (ht : target ≠ 0)
    (he : target = cur) :
    slideLoop g x y d false cur coord (n + 1) =
      (toInt32 (2 * cur), (g.setDire x y d coord (2 * cur)).setCell x y 0) := by
  rw [slideLoop_succ, hp]
  rw [he] at ht
  simp [he, ht]

theorem slide_of_get_error {g : Grid} {x y : Int} {d : DIRECTION} {skip : Bool}
    {e : GridError} (hget : g.get x y = .error e) :
    g.slide x y d skip = .error e := by
  unfold Grid.slide
  rw [hget]

theorem slide_of_get_ok {g : Grid} {x y : Int} {s : Bool}
    {d : DIRECTION} {c : Int} (hget : g.get x y = .ok c) :
    g.slide x y d s =
      if c = 0 then .ok (-1, g)
      else .ok (slideLoop g x y d s c 1 (g.width + g.height)) := by
  unfold Grid.slide
  rw [hget]

theorem mergeStep_of_slide_error {d : DIRECTION} {st : MState} {p : Int × Int}
    {e : GridError} (hs : st.grid.slide p.1 p.2 d st.skipMerge = .error e) :
    mergeStep d st p = st := by
  unfold mergeStep
  rw [hs]

theorem mergeStep_of_slide_ok {d : DIRECTION} {st : MState} {p : Int × Int}
    {r : Int} {g' : Grid} (hs : st.grid.slide p.1 p.2 d st.skipMerge = .ok (r, g')) :
    mergeStep d st p =
      { grid := g'
        newScore := if 0 < r then st.newScore + r else st.newScore
        skipMerge := if 0 < r then true else st.skipMerge
        haveMotions := if 0 ≤ r then true else st.haveMotions } := by
  unfold mergeStep
  rw [hs]

theorem sameShape_slideStop (g : Grid) (x y : Int) (d : DIRECTION) (cur coord : Int) :
    sameShape g (slideStop g x y d cur coord).2 := by
  unfold slideStop
  split
  · exact sameShape_trans (sameShape_setDire ..) (sameShape_setCell ..)
  · exact sameShape_refl g

theorem sameShape_slideLoop (g : Grid) (x y : Int) (d : DIRECTION) (skip : Bool)
    (cur : Int) : ∀ (fuel : Nat) (coord : Int),
    sameShape g (slideLoop g x y d skip cur coord fuel).2 := by
  intro fuel
  induction fuel with
  | zero => intro coord; exact sameShape_refl g
  | succ n ih =>
    intro coord
    cases hp : g.getDire x y d coord with
    | error e =>
      rw [slideLoop_of_error hp]
      exact sameShape_slideStop ..
    | ok target =>
      by_cases ht : target = 0
      · rw [ht] at hp
        rw [slideLoop_of_zero hp]
        exact ih (coord + 1)
      · cases skip with
        | true =>
          rw [slideLoop_of_skip hp ht]
          exact sameShape_slideStop ..
        | false =>
          by_cases he : target = cur
          · rw [slideLoop_of_merge hp ht he]
            exact sameShape_trans (sameShape_setDire ..) (sameShape_setCell ..)
          · rw [slideLoop_of_block hp ht he]
            exact sameShape_slideStop ..

theorem sameShape_slide {g g' : Grid} {x y : Int} {d : DIRECTION} {skip : Bool}
    {r : Int} (h : g.slide x y d skip = .ok (r, g')) : sameShape g g' := by
  cases hget : g.get x y with
  | error e => rw [slide_of_get_error hget] at h; cases h
  | ok cur =>
    rw [slide_of_get_ok hget] at h
    by_cases hc : cur = 0
    · rw [if_pos hc] at h
      injection h with h'
      obtain ⟨h1, h2⟩ := Prod.mk.inj h'
      rw [← h2]
      exact sameShape_refl g
    · rw [if_neg hc] at h
      injection h with h'
      have h2 := congrArg Prod.snd h'
      simp only at h2
      rw [← h2]
      exact sameShape_slideLoop ..

/-- Fold invariant principle used for the `only_merge` scans. -/
theorem foldl_inv {α β : Type _} (P : α → Prop) (f : α → β → α)
    (hf : ∀ st p, P st → P (f st p)) :
    ∀ (l : List β) (st : α), P st → P (l.foldl f st) := by
  intro l
  induction l with
  | nil => intro st h; exact h
  | cons a t ih => intro st h; exact ih _ (hf _ _ h)

theorem sameShape_mergeStep (d : DIRECTION) (st : MState) (p : Int × Int) :
    sameShape st.grid (mergeStep d st p).grid := by
  unfold mergeStep
  cases hs : st.grid.slide p.1 p.2 d st.skipMerge with
  | error e => exact sameShape_refl _
  | ok rg =>
    obtain ⟨r, g'⟩ := rg
    exact sameShape_slide hs

theorem sameShape_foldLine (d : DIRECTION) (st : MState) (line : List (Int × Int)) :
    sameShape st.grid (foldLine d st line).grid := by
  unfold foldLine
  have := foldl_inv (fun s : MState => sameShape st.grid s.grid) (mergeStep d)
    (fun s p hp => sameShape_trans hp (sameShape_mergeStep d s p)) line
    { st with skipMerge := false } (sameShape_refl _)
  exact this

theorem sameShape_only_merge (g : Grid) (d : DIRECTION) :
    sameShape g (g.only_merge d).2.2 := by
  unfold Grid.only_merge mergeFinish
  exact foldl_inv (fun s : MState => sameShape g s.grid) (foldLine d)
    (fun s l hp => sameShape_trans hp (sameShape_foldLine d s l))
    (scanLines d g.width g.height) ⟨g, 0, false, false⟩ (sameShape_refl g)

/-! ## Claim C8: bounds checking of `get` and `put` -/

/-- C8: for every coordinate pair outside `[0,width)×[0,height)` both
`get` and `put` fail with the `OutOfRange` error (and, being pure, a
failing `put` produces no new grid, so every cell is unchanged); for
every in-bounds pair both succeed. -/
theorem get_put_bounds_check (g : Grid) (x y v : Int) :
    (¬(0 ≤ x ∧ x < (g.width : Int) ∧ 0 ≤ y ∧ y < (g.height : Int)) →
      g.get x y = .error .outOfRange ∧ g.put x y v = .error .outOfRange) ∧
    ((0 ≤ x ∧ x < (g.width : Int) ∧ 0 ≤ y ∧ y < (g.height : Int)) →
      (∃ c, g.get x y = .ok c) ∧ (∃ g', g.put x y v = .ok g')) := by
  constructor
  · intro h
    have ho : g.oob x y := (g.oob_iff x y).mpr h
    constructor
    · exact Grid.get_of_oob ho
    · unfold Grid.put
      simp [ho]
  · intro h
    have ho : ¬ g.oob x y := by
      rw [g.oob_iff]
      exact not_not_intro h
    constructor
    · exact ⟨_, Grid.get_of_not_oob ho⟩
    · exact ⟨g.setCell x y v, by unfold Grid.put; simp [ho]⟩

/-- Witness for C8 at a concrete grid: `(5, 0)` is out of bounds on
the 4×4 grid, `(1, 1)` is in bounds. -/
theorem get_put_bounds_check_witness :
    (gEmpty44.get 5 0 = .error .outOfRange ∧
      gEmpty44.put 5 0 7 = .error .outOfRange) ∧
    ((∃ c, gEmpty44.get 1 1 = .ok c) ∧ (∃ g', gEmpty44.put 1 1 7 = .ok g')) :=
  ⟨(get_put_bounds_check gEmpty44 5 0 7).1 (by decide),
    (get_put_bounds_check gEmpty44 1 1 7).2 (by decide)⟩

/-! ## Claim C7: weighted tile choice of `generate_randomly` -/

/-- C7: `generate_randomly` picks the placed value by three cascading
1-in-4 flips (a flip "hits" exactly when the uniform draw over `[0,4)`
is 0): first miss places 2, hit-miss places 4, hit-hit-miss places 8,
three hits place 16; over the 64 equiprobable flip triples the values
2/4/8/16 occur 48/12/3/1 times, i.e. with weights 3/4, 3/16, 3/64,
1/64; and the placement itself is delegated to `generate`. -/
theorem generate_randomly_cascade_and_weights :
    (∀ (g : Grid) (f1 f2 f3 : Nat) (draws : List Nat),
      g.generate_randomly f1 f2 f3 draws = g.generate (chosenTile f1 f2 f3) draws) ∧
    (∀ f1 f2 f3 : Nat,
      (f1 ≠ 0 → chosenTile f1 f2 f3 = 2) ∧
      (f1 = 0 → f2 ≠ 0 → chosenTile f1 f2 f3 = 4) ∧
      (f1 = 0 → f2 = 0 → f3 ≠ 0 → chosenTile f1 f2 f3 = 8) ∧
      (f1 = 0 → f2 = 0 → f3 = 0 → chosenTile f1 f2 f3 = 16)) ∧
    (((Finset.range 4 ×ˢ Finset.range 4 ×ˢ Finset.range 4).filter
        (fun t => chosenTile t.1 t.2.1 t.2.2 = 2)).card = 48 ∧
      ((Finset.range 4 ×ˢ Finset.range 4 ×ˢ Finset.range 4).filter
        (fun t => chosenTile t.1 t.2.1 t.2.2 = 4)).card = 12 ∧
      ((Finset.range 4 ×ˢ Finset.range 4 ×ˢ Finset.range 4).filter
        (fun t => chosenTile t.1 t.2.1 t.2.2 = 8)).card = 3 ∧
      ((Finset.range 4 ×ˢ Finset.range 4 ×ˢ Finset.range 4).filter
        (fun t => chosenTile t.1 t.2.1 t.2.2 = 16)).card = 1) := by
  refine ⟨?_, ?_, ?_⟩
  · intro g f1 f2 f3 draws
    unfold Grid.generate_randomly chosenTile
    split_ifs <;> rfl
  · intro f1 f2 f3
    refine ⟨?_, ?_, ?_, ?_⟩ <;> intros <;> simp [chosenTile, *]
  · exact ⟨by decide, by decide, by decide, by decide⟩

/-- Witness for C7: each flip pattern at a concrete input, and the
delegation at a concrete grid. -/
theorem generate_randomly_cascade_witness :
    gEmpty44.generate_randomly 1 0 0 [] = gEmpty44.generate 2 [] ∧
    chosenTile 1 0 0 = 2 ∧ chosenTile 0 1 0 = 4 ∧
    chosenTile 0 0 1 = 8 ∧ chosenTile 0 0 0 = 16 :=
  ⟨generate_randomly_cascade_and_weights.1 gEmpty44 1 0 0 [],
    (generate_randomly_cascade_and_weights.2.1 1 0 0).1 (by decide),
    (generate_randomly_cascade_and_weights.2.1 0 1 0).2.1 rfl (by decide),
    (generate_randomly_cascade_and_weights.2.1 0 0 1).2.2.1 rfl rfl (by decide),
    (generate_randomly_cascade_and_weights.2.1 0 0 0).2.2.2 rfl rfl rfl⟩

/-! ## Claim C1: `is_fail` on full boards

On the game's own 4×6 board (`Game` constructs `Grid(4, 6)`), a full
board with no equal 4-neighbours does not make `is_fail` return true:
the right-neighbour guard reads `x < height() - 1` (and the
down-neighbour guard `y < width() - 1`), so the scan reads `get(4, y)`
and throws `std::out_of_range` instead. -/

/-- C1 (code bug witness): `gCheck46` is full, no two 4-adjacent cells
are equal, yet `is_fail` raises `OutOfRange` instead of returning
true. -/
theorem is_fail_out_of_range_on_full_4x6_board :
    gCheck46.is_full = true ∧
    (∀ x ∈ Finset.range 4, ∀ y ∈ Finset.range 6,
      (x + 1 < 4 →
        gCheck46.cells.getD (x + y * 4) 0 ≠ gCheck46.cells.getD (x + 1 + y * 4) 0) ∧
      (y + 1 < 6 →
        gCheck46.cells.getD (x + y * 4) 0 ≠ gCheck46.cells.getD (x + (y + 1) * 4) 0)) ∧
    gCheck46.is_fail = .error .outOfRange := by
  refine ⟨by decide, by decide, by rfl⟩

/-! ## Claims C2 and C4: single-merge-per-line behaviour -/

/-- C2 (counterexample): the line `[2,2,2,2]` merged LEFT does *not*
become `[4,4,0,0]`. -/
theorem merge_left_2222_not_4400 :
    (gLine2222.only_merge .LEFT).2.2.cells ≠ [4, 4, 0, 0] ++ List.replicate 12 0 := by
  decide

/-- C2 (amended): the line `[2,2,2,2]` merged LEFT becomes
`[4,2,2,0]` with score gain 4 — after the first merge `skip_merge`
stays set for the remainder of the line, so the second pair only
slides and does not merge. -/
theorem merge_left_2222_eq_4220 :
    gLine2222.only_merge .LEFT
      = (4, true, mkGrid 4 4 ([4, 2, 2, 0] ++ List.replicate 12 0)) := by
  decide

/-- C4: the line `[2,2,2,0]` merged LEFT becomes `[4,2,0,0]`, not
`[4,4,0,0]`: the freshly merged 4 does not merge again with the third
2 sliding into it in the same move. -/
theorem merge_left_2220_eq_4200 :
    (gLine2220.only_merge .LEFT).2.2
        = mkGrid 4 4 ([4, 2, 0, 0] ++ List.replicate 12 0) ∧
    (gLine2220.only_merge .LEFT).2.2.cells ≠ [4, 4, 0, 0] ++ List.replicate 12 0 := by
  exact ⟨by decide, by decide⟩

/-! ## Claim C3: merging an all-zero grid -/

theorem getD_zero_of_all_zero {l : List Int} (hz : ∀ c ∈ l, c = 0) (i : Nat) :
    l.getD i 0 = 0 := by
  by_cases h : i < l.length
  · rw [List.getD_eq_getElem l 0 h]
    exact hz _ (List.getElem_mem h)
  · exact List.getD_eq_default l 0 (by omega)

/-- Sliding from a cell that reads 0 (or is out of bounds) changes
nothing in the merge state. -/
theorem mergeStep_of_zero_cell {d : DIRECTION} {st : MState} {p : Int × Int}
    (h : st.grid.cells.getD (st.grid.idx p.1 p.2) 0 = 0) : mergeStep d st p = st := by
  by_cases ho : st.grid.oob p.1 p.2
  · rw [mergeStep_of_slide_error (slide_of_get_error (Grid.get_of_oob ho))]
  · have hget : st.grid.get p.1 p.2 = .ok 0 := by
      rw [Grid.get_of_not_oob ho, h]
    have hs : st.grid.slide p.1 p.2 d st.skipMerge = .ok (-1, st.grid) := by
      rw [slide_of_get_ok hget]
      simp
    rw [mergeStep_of_slide_ok hs]
    norm_num

theorem foldl_const {α β : Type _} (f : α → β → α) (st : α) (l : List β)
    (h : ∀ p ∈ l, f st p = st) : l.foldl f st = st := by
  induction l with
  | nil => rfl
  | cons a t ih =>
    rw [List.foldl_cons, h a (by simp)]
    exact ih (fun p hp => h p (by simp [hp]))

theorem foldLine_of_zero_grid {d : DIRECTION} {st : MState}
    {line : List (Int × Int)} (h : ∀ c ∈ st.grid.cells, c = 0) :
    foldLine d st line = { st with skipMerge := false } := by
  unfold foldLine
  exact foldl_const _ _ _ (fun p _ => mergeStep_of_zero_cell (getD_zero_of_all_zero h _))

theorem only_merge_zero_grid (g : Grid) (d : DIRECTION)
    (h : ∀ c ∈ g.cells, c = 0) : g.only_merge d = (-1, false, g) := by
  unfold Grid.only_merge
  rw [foldl_const (foldLine d) ⟨g, 0, false, false⟩ _
    (fun l _ => foldLine_of_zero_grid h)]
  rfl

/-- C3 (counterexample to the claim as stated): on an all-zero grid
`only_merge` returns -1, not 0. -/
theorem merge_empty_grid_returns_neg_one :
    (gEmpty44.only_merge .LEFT).1 = -1 ∧ (gEmpty44.only_merge .LEFT).1 ≠ 0 :=
  ⟨by decide, by decide⟩

/-- C3 (amended): for every direction, `only_merge` on a grid whose
cells are all zero is a no-op: it reports no motion, returns the
no-motion sentinel -1 (not 0), and leaves every cell unchanged;
`merge` likewise leaves the accumulated score unchanged. -/
theorem merge_empty_grid_noop (g : Grid) (d : DIRECTION)
    (h : ∀ c ∈ g.cells, c = 0) :
    g.only_merge d = (-1, false, g) ∧ g.merge d = (-1, false, g) := by
  have h1 := only_merge_zero_grid g d h
  refine ⟨h1, ?_⟩
  unfold Grid.merge
  rw [h1]
  norm_num

/-- Witness for C3 (amended) at the concrete empty 4×4 grid. -/
theorem merge_empty_grid_noop_witness :
    gEmpty44.only_merge .RIGHT = (-1, false, gEmpty44) ∧
    gEmpty44.merge .RIGHT = (-1, false, gEmpty44) :=
  merge_empty_grid_noop gEmpty44 .RIGHT (by decide)

/-! ## Claim C9: score monotonicity of `merge` -/

theorem mergeFinish_fst_of_no_motion {st : MState} (h : st.haveMotions = false) :
    (mergeFinish st).1 = -1 := by
  unfold mergeFinish
  rw [h]
  simp

theorem only_merge_neg_one_of_no_motion {g : Grid} {d : DIRECTION}
    (h : (g.only_merge d).2.1 = false) : (g.only_merge d).1 = -1 :=
  mergeFinish_fst_of_no_motion h

/-- C9: the accumulated score never decreases across `merge`, and when
no motion occurred (`*have_motions_out` false, a wholly blocked move)
the score is exactly unchanged — the returned value is added to the
running total only on a score-bearing move. -/
theorem merge_score_monotone (g : Grid) (d : DIRECTION) :
    g.score ≤ (g.merge d).2.2.score ∧
    ((g.only_merge d).2.1 = false → (g.merge d).2.2.score = g.score) := by
  have hsc : (g.only_merge d).2.2.score = g.score := (sameShape_only_merge g d).2.2.1
  constructor
  · unfold Grid.merge
    by_cases h : 0 < (g.only_merge d).1
    · rw [if_pos h]
      simp only [hsc]
      linarith
    · rw [if_neg h]
      simp [hsc]
  · intro hm
    have hneg := only_merge_neg_one_of_no_motion hm
    unfold Grid.merge
    rw [hneg]
    norm_num
    exact hsc

/-- Witness for C9 at a concrete blocked move: on the empty grid no
motion occurs and the score is unchanged. -/
theorem merge_score_monotone_witness :
    gEmpty44.score ≤ (gEmpty44.merge .UP).2.2.score ∧
    (gEmpty44.merge .UP).2.2.score = gEmpty44.score :=
  ⟨(merge_score_monotone gEmpty44 .UP).1,
    (merge_score_monotone gEmpty44 .UP).2 (by decide)⟩

/-! ## Claim C10: `only_merge` preserves the sum of all cells -/

theorem sum_set (l : List Int) : ∀ (i : Nat), i < l.length → ∀ v : Int,
    (l.set i v).sum = l.sum - l.getD i 0 + v := by
  induction l with
  | nil => intro i h v; simp at h
  | cons a t ih =>
    intro i h v
    cases i with
    | zero => simp; ring
    | succ n =>
      have hn : n < t.length := by simpa using h
      simp only [List.set_cons_succ, List.sum_cons, List.getD_cons_succ]
      rw [ih n hn v]
      ring

theorem WF_setCell {g : Grid} (h : g.WF) (x y v : Int) : (g.setCell x y v).WF := by
  unfold Grid.WF at *
  simp [h]

theorem WF_of_sameShape {g g' : Grid} (hwf : g.WF) (h : sameShape g g') : g'.WF := by
  unfold Grid.WF at *
  obtain ⟨hw, hh, _, hl⟩ := h
  rw [hl, hw, hh]
  exact hwf

theorem oob_setCell (g : Grid) (a b v x y : Int) :
    (g.setCell a b v).oob x y ↔ g.oob x y := by
  unfold Grid.oob
  simp

theorem idx_setCell (g : Grid) (a b v x y : Int) :
    (g.setCell a b v).idx x y = g.idx x y := by
  unfold Grid.idx
  simp

theorem direShift_ne {x y coord : Int} (d : DIRECTION) (h : 1 ≤ coord) :
    direShift x y d coord ≠ (x, y) := by
  cases d <;> simp [direShift, Prod.ext_iff] <;> omega

theorem idx_ne_of_ne {g : Grid} {x1 y1 x2 y2 : Int} (h1 : ¬ g.oob x1 y1)
    (h2 : ¬ g.oob x2 y2) (hne : (x1, y1) ≠ (x2, y2)) :
    g.idx x1 y1 ≠ g.idx x2 y2 := by
  intro he
  obtain ⟨hx, hy⟩ := g.idx_inj h1 h2 he
  exact hne (by rw [hx, hy])

theorem sum_setCell {g : Grid} {x y : Int} (v : Int) (hwf : g.WF)
    (ho : ¬ g.oob x y) :
    (g.setCell x y v).cells.sum = g.cells.sum - g.cells.getD (g.idx x y) 0 + v := by
  rw [Grid.setCell_of_not_oob v ho]
  exact sum_set _ _ (g.idx_lt hwf ho) v

/-- Sum effect of the two writes every slide outcome performs: first a
write at the (in-bounds) probe position, then zeroing the (distinct,
in-bounds) source cell. -/
theorem sum_write_pair {g : Grid} {x y xs ys : Int} (hwf : g.WF)
    (hx : ¬ g.oob x y) (hs : ¬ g.oob xs ys) (hne : (xs, ys) ≠ (x, y))
    (a b : Int) :
    ((g.setCell xs ys a).setCell x y b).cells.sum
      = g.cells.sum - g.cells.getD (g.idx xs ys) 0 + a
          - g.cells.getD (g.idx x y) 0 + b := by
  have e1 := sum_setCell a hwf hs
  have hwf1 : (g.setCell xs ys a).WF := WF_setCell hwf xs ys a
  have hx1 : ¬ (g.setCell xs ys a).oob x y := by
    rw [oob_setCell]
    exact hx
  have e2 := sum_setCell b hwf1 hx1
  rw [e2, e1, idx_setCell]
  have hgd : (g.setCell xs ys a).cells.getD (g.idx x y) 0
      = g.cells.getD (g.idx x y) 0 := by
    rw [Grid.setCell_of_not_oob a hs]
    exact listGetD_set_ne a (idx_ne_of_ne hs hx hne)
  rw [hgd]

theorem slideStop_sum {g : Grid} {x y : Int} {d : DIRECTION} {cur coord : Int}
    (hwf : g.WF) (hx : ¬ g.oob x y) (hcur : g.cells.getD (g.idx x y) 0 = cur)
    (hz : 1 < coord → g.getDire x y d (coord - 1) = .ok 0) :
    (slideStop g x y d cur coord).2.cells.sum = g.cells.sum := by
  unfold slideStop
  by_cases h : 1 < coord
  · rw [if_pos h]
    have hz' : g.get (direShift x y d (coord - 1)).1 (direShift x y d (coord - 1)).2
        = .ok 0 := hz h
    obtain ⟨hs, hv⟩ := Grid.get_ok_inv hz'
    unfold Grid.setDire
    have hne : ((direShift x y d (coord - 1)).1, (direShift x y d (coord - 1)).2)
        ≠ (x, y) := direShift_ne d (by omega)
    rw [sum_write_pair hwf hx hs hne cur 0]
    rw [hv, hcur]
    ring
  · rw [if_neg h]

theorem slideMerge_sum {g : Grid} {x y : Int} {d : DIRECTION} {coord cur : Int}
    (hwf : g.WF) (hx : ¬ g.oob x y) (hcur : g.cells.getD (g.idx x y) 0 = cur)
    (hp : g.getDire x y d coord = .ok cur) (hc1 : 1 ≤ coord) :
    ((g.setDire x y d coord (2 * cur)).setCell x y 0).cells.sum = g.cells.sum := by
  have hp' : g.get (direShift x y d coord).1 (direShift x y d coord).2 = .ok cur := hp
  obtain ⟨hs, hv⟩ := Grid.get_ok_inv hp'
  unfold Grid.setDire
  have hne : ((direShift x y d coord).1, (direShift x y d coord).2) ≠ (x, y) :=
    direShift_ne d hc1
  rw [sum_write_pair hwf hx hs hne (2 * cur) 0]
  rw [hv, hcur]
  ring

theorem slideLoop_sum {g : Grid} {x y : Int} {d : DIRECTION} {skip : Bool}
    {cur : Int} (hwf : g.WF) (hx : ¬ g.oob x y)
    (hcur : g.cells.getD (g.idx x y) 0 = cur) :
    ∀ (fuel : Nat) (coord : Int), 1 ≤ coord →
    (∀ j : Int, 1 ≤ j → j < coord → g.getDire x y d j = .ok 0) →
    (slideLoop g x y d skip cur coord fuel).2.cells.sum = g.cells.sum := by
  intro fuel
  induction fuel with
  | zero => intro coord _ _; rfl
  | succ n ih =>
    intro coord hc hprev
    cases hp : g.getDire x y d coord with
    | error e =>
      rw [slideLoop_of_error hp]
      exact slideStop_sum hwf hx hcur (fun h1 => hprev _ (by omega) (by omega))
    | ok target =>
      by_cases ht : target = 0
      · rw [ht] at hp
        rw [slideLoop_of_zero hp]
        refine ih (coord + 1) (by omega) (fun j hj1 hj2 => ?_)
        by_cases hje : j = coord
        · rw [hje]
          exact hp
        · exact hprev j hj1 (by omega)
      · cases skip with
        | true =>
          rw [slideLoop_of_skip hp ht]
          exact slideStop_sum hwf hx hcur (fun h1 => hprev _ (by omega) (by omega))
        | false =>
          by_cases he : target = cur
          · rw [slideLoop_of_merge hp ht he]
            rw [he] at hp
            exact slideMerge_sum hwf hx hcur hp hc
          · rw [slideLoop_of_block hp ht he]
            exact slideStop_sum hwf hx hcur (fun h1 => hprev _ (by omega) (by omega))

theorem slide_sum {g g' : Grid} {x y : Int} {d : DIRECTION} {skip : Bool}
    {r : Int} (hwf : g.WF) (h : g.slide x y d skip = .ok (r, g')) :
    g'.cells.sum = g.cells.sum := by
  cases hget : g.get x y with
  | error e => rw [slide_of_get_error hget] at h; cases h
  | ok cur =>
    obtain ⟨ho, hcur⟩ := Grid.get_ok_inv hget
    rw [slide_of_get_ok hget] at h
    by_cases hc : cur = 0
    · rw [if_pos hc] at h
      injection h with h'
      obtain ⟨h1, h2⟩ := Prod.mk.inj h'
      rw [← h2]
    · rw [if_neg hc] at h
      injection h with h'
      have h2 := congrArg Prod.snd h'
      simp only at h2
      rw [← h2]
      exact slideLoop_sum hwf ho hcur _ 1 (le_refl 1)
        (fun j hj1 hj2 => absurd hj2 (by omega))

theorem mergeStep_sum {d : DIRECTION} {st : MState} {p : Int × Int}
    (hwf : st.grid.WF) :
    (mergeStep d st p).grid.cells.sum = st.grid.cells.sum := by
  cases hs : st.grid.slide p.1 p.2 d st.skipMerge with
  | error e => rw [mergeStep_of_slide_error hs]
  | ok rg =>
    obtain ⟨r, g'⟩ := rg
    rw [mergeStep_of_slide_ok hs]
    exact slide_sum hwf hs

theorem foldLine_sum {d : DIRECTION} {st : MState} {line : List (Int × Int)}
    (hwf : st.grid.WF) :
    (foldLine d st line).grid.WF ∧
      (foldLine d st line).grid.cells.sum = st.grid.cells.sum := by
  unfold foldLine
  exact foldl_inv
    (fun s : MState => s.grid.WF ∧ s.grid.cells.sum = st.grid.cells.sum)
    (mergeStep d)
    (fun s p hp => ⟨WF_of_sameShape hp.1 (sameShape_mergeStep d s p),
      (mergeStep_sum hp.1).trans hp.2⟩)
    line { st with skipMerge := false } ⟨hwf, rfl⟩

/-- C10: for every well-formed grid state and every direction,
`only_merge` leaves the sum of all cell values unchanged — a slide
moves a value without altering it, and a merge replaces two cells of
value `v` by one cell of value `2v` and one zero cell. -/
theorem only_merge_preserves_cell_sum (g : Grid) (d : DIRECTION) (hwf : g.WF) :
    gridSum (g.only_merge d).2.2 = gridSum g := by
  unfold gridSum Grid.only_merge mergeFinish
  exact (foldl_inv
    (fun s : MState => s.grid.WF ∧ s.grid.cells.sum = g.cells.sum)
    (foldLine d)
    (fun s l hp => ⟨(foldLine_sum hp.1).1, ((foldLine_sum hp.1).2).trans hp.2⟩)
    (scanLines d g.width g.height) ⟨g, 0, false, false⟩ ⟨hwf, rfl⟩).2

/-- Witness for C10 at a concrete grid and direction. -/
theorem only_merge_preserves_cell_sum_witness :
    gridSum (gLine2222.only_merge .LEFT).2.2 = gridSum gLine2222 :=
  only_merge_preserves_cell_sum gLine2222 .LEFT (by unfold Grid.WF; rfl)

/-! ## Claim C6: `generate` places exactly one tile on an empty cell -/

theorem is_full_false_of_empty {g : Grid} {p : Nat} (hp : p < g.width * g.height)
    (h : g.cells.getD p 0 = 0) : g.is_full = false := by
  have hany : (List.range (g.width * g.height)).any
      (fun i => g.cells.getD i 0 == 0) = true := by
    rw [List.any_eq_true]
    refine ⟨p, List.mem_range.mpr hp, ?_⟩
    simp only [beq_iff_eq]
    exact h
  unfold Grid.is_full
  rw [hany]
  rfl

theorem generateLoop_finds {g : Grid} {t : Int} :
    ∀ (draws : List Nat), (∃ p ∈ draws, g.cells.getD p 0 = 0) →
    ∃ q, q ∈ draws ∧ g.cells.getD q 0 = 0 ∧
      generateLoop g t draws = some { g with cells := g.cells.set q t } := by
  intro draws
  induction draws with
  | nil => intro h; obtain ⟨p, hp, _⟩ := h; cases hp
  | cons a rest ih =>
    intro h
    by_cases ha : g.cells.getD a 0 = 0
    · refine ⟨a, by simp, ha, ?_⟩
      unfold generateLoop
      rw [if_pos ha]
    · obtain ⟨p, hp, hpe⟩ := h
      have hp' : p ∈ rest := by
        rcases List.mem_cons.mp hp with h1 | h1
        · exact absurd (h1 ▸ hpe) ha
        · exact h1
      obtain ⟨q, hq, hqe, hqr⟩ := ih ⟨p, hp', hpe⟩
      refine ⟨q, by simp [hq], hqe, ?_⟩
      unfold generateLoop
      rw [if_neg ha]
      exact hqr

theorem countNonZero_set {l : List Int} : ∀ (q : Nat), q < l.length →
    l.getD q 0 = 0 → ∀ t : Int, t ≠ 0 →
    countNonZero (l.set q t) = countNonZero l + 1 := by
  unfold countNonZero
  induction l with
  | nil => intro q h; simp at h
  | cons a r ih =>
    intro q hq h0 t ht
    cases q with
    | zero =>
      simp only [List.getD_cons_zero] at h0
      simp [List.countP_cons, h0, ht]
    | succ n =>
      simp only [List.set_cons_succ, List.countP_cons, List.getD_cons_succ] at *
      rw [ih n (by simpa using hq) h0 t ht]
      omega

/-- C6: `generate(target)` returns `true` and changes nothing when the
board is full; on a non-full board — given that the position draws
stay in range (as `pos_dist` guarantees) and eventually hit an empty
cell (almost surely for the real random engine) — it returns `false`,
writes `target` onto a previously empty cell, never overwrites a
non-zero cell (every other cell is unchanged), and afterwards exactly
one more cell is non-zero than before. -/
theorem generate_places_exactly_one (g : Grid) (t : Int) (draws : List Nat) :
    (g.is_full = true → g.generate t draws = some (true, g)) ∧
    (g.WF → t ≠ 0 → (∀ p ∈ draws, p < g.width * g.height) →
      (∃ p ∈ draws, g.cells.getD p 0 = 0) →
      ∃ q, q < g.cells.length ∧ g.cells.getD q 0 = 0 ∧
        g.generate t draws = some (false, { g with cells := g.cells.set q t }) ∧
        (g.cells.set q t).getD q 0 = t ∧
        (∀ j : Nat, j ≠ q → (g.cells.set q t).getD j 0 = g.cells.getD j 0) ∧
        countNonZero (g.cells.set q t) = countNonZero g.cells + 1) := by
  constructor
  · intro hf
    unfold Grid.generate
    rw [hf]
    rfl
  · intro hwf ht hrange hex
    obtain ⟨q, hq, hqe, hrun⟩ := generateLoop_finds draws hex
    have hqlen : q < g.cells.length := by
      rw [hwf]
      exact hrange q hq
    have hfull : g.is_full = false := is_full_false_of_empty (hrange q hq) hqe
    refine ⟨q, hqlen, hqe, ?_, ?_, ?_, ?_⟩
    · unfold Grid.generate
      rw [hfull, hrun]
      rfl
    · exact listGetD_set_self t hqlen
    · intro j hj
      exact listGetD_set_ne t (fun he => hj he.symm)
    · exact countNonZero_set q hqlen hqe t ht

/-- Witness for C6: the full 1×1 board rejects placement unchanged;
on the 2×2 board with one tile, draws `[0, 1]` skip the occupied cell
0 and fill cell 1. -/
theorem generate_places_exactly_one_witness :
    gFull11.generate 4 [0] = some (true, gFull11) ∧
    (∃ q, q < gTwo22.cells.length ∧ gTwo22.cells.getD q 0 = 0 ∧
      gTwo22.generate 4 [0, 1]
        = some (false, { gTwo22 with cells := gTwo22.cells.set q 4 }) ∧
      (gTwo22.cells.set q 4).getD q 0 = 4 ∧
      (∀ j : Nat, j ≠ q → (gTwo22.cells.set q 4).getD j 0 = gTwo22.cells.getD j 0) ∧
      countNonZero (gTwo22.cells.set q 4) = countNonZero gTwo22.cells + 1) :=
  ⟨(generate_places_exactly_one gFull11 4 [0]).1 (by decide),
    (generate_places_exactly_one gTwo22 4 [0, 1]).2 (by unfold Grid.WF; rfl)
      (by decide) (by decide) ⟨1, by decide, by decide⟩⟩

/-! ## Claim C5: merging an isolated adjacent pair

Shared machinery: transported bounds/index facts, runs of the slide
loop through empty cells, and splits of the scan order around the
pair's line. -/

@[simp] theorem direShift_UP (x y c : Int) : direShift x y .UP c = (x, y - c) := rfl

@[simp] theorem direShift_DOWN (x y c : Int) : direShift x y .DOWN c = (x, y + c) := rfl

@[simp] theorem direShift_RIGHT (x y c : Int) : direShift x y .RIGHT c = (x + c, y) := rfl

@[simp] theorem direShift_LEFT (x y c : Int) : direShift x y .LEFT c = (x - c, y) := rfl

theorem oob_of_sameShape {g g' : Grid} (h : sameShape g g') (x y : Int) :
    g'.oob x y ↔ g.oob x y := by
  unfold Grid.oob
  rw [h.1, h.2.1]

theorem idx_of_sameShape {g g' : Grid} (h : sameShape g g') (x y : Int) :
    g'.idx x y = g.idx x y := by
  unfold Grid.idx
  rw [h.1]

theorem get_of_sameShape {g g' : Grid} (h : sameShape g g') {x y : Int}
    (ho : ¬ g.oob x y) :
    g'.get x y = .ok (g'.cells.getD (g.idx x y) 0) := by
  rw [Grid.get_of_not_oob (by rw [oob_of_sameShape h]; exact ho),
    idx_of_sameShape h]

/-- Pointwise description of a bounds-checked write. -/
theorem getD_setCell {g : Grid} {x y : Int} (v : Int) (hwf : g.WF)
    (ho : ¬ g.oob x y) (j : Nat) :
    (g.setCell x y v).cells.getD j 0
      = if j = g.idx x y then v else g.cells.getD j 0 := by
  rw [Grid.setCell_of_not_oob v ho]
  by_cases hj : j = g.idx x y
  · rw [hj, if_pos rfl]
    exact listGetD_set_self v (g.idx_lt hwf ho)
  · rw [if_neg hj]
    exact listGetD_set_ne v (fun he => hj he.symm)

/-- Running the slide loop over probes that all read 0 until the probe
at `k` leaves the grid (or is blocked from there on): the loop reaches
the catch branch at `k`. -/
theorem slideLoop_runs_to_stop {g : Grid} {x y : Int} {d : DIRECTION}
    {skip : Bool} {cur : Int} :
    ∀ (fuel : Nat) (coord k : Int), coord ≤ k → k - coord < fuel →
    (∀ j : Int, coord ≤ j → j < k → g.getDire x y d j = .ok 0) →
    (∃ e, g.getDire x y d k = .error e) →
    slideLoop g x y d skip cur coord fuel = slideStop g x y d cur k := by
  intro fuel
  induction fuel with
  | zero => intro coord k h1 h2 _ _; omega
  | succ n ih =>
    intro coord k hck hfuel hz he
    obtain ⟨e, herr⟩ := he
    by_cases hek : coord = k
    · subst hek
      exact slideLoop_of_error herr
    · have hlt : coord < k := lt_of_le_of_ne hck hek
      rw [slideLoop_of_zero (hz coord le_rfl hlt)]
      exact ih (coord + 1) k (by omega) (by omega)
        (fun j hj1 hj2 => hz j (by omega) hj2) ⟨e, herr⟩

/-- Running the slide loop over probes that all read 0 until the probe
at `k` reads a non-zero value. -/
theorem slideLoop_runs_to_hit {g : Grid} {x y : Int} {d : DIRECTION}
    {s : Bool} {c : Int} :
    ∀ (fuel : Nat) (coord k : Int) (t : Int), coord ≤ k → k - coord < fuel →
    (∀ j : Int, coord ≤ j → j < k → g.getDire x y d j = .ok 0) →
    g.getDire x y d k = .ok t → t ≠ 0 →
    slideLoop g x y d s c coord fuel =
      (if s then slideStop g x y d c k
       else if t = c then (toInt32 (2 * c), (g.setDire x y d k (2 * c)).setCell x y 0)
       else slideStop g x y d c k) := by
  intro fuel
  induction fuel with
  | zero => intro coord k t h1 h2 _ _ _; omega
  | succ n ih =>
    intro coord k t hck hfuel hz hk ht
    by_cases hek : coord = k
    · subst hek
      cases s with
      | true => rw [slideLoop_of_skip hk ht]; simp
      | false =>
        by_cases he : t = c
        · rw [slideLoop_of_merge hk ht he, he]
          simp
        · rw [slideLoop_of_block hk ht he]
          simp [he]
    · have hlt : coord < k := lt_of_le_of_ne hck hek
      rw [slideLoop_of_zero (hz coord le_rfl hlt)]
      exact ih (coord + 1) k t (by omega) (by omega)
        (fun j hj1 hj2 => hz j (by omega) hj2) hk ht

/-- A whole line of cells that read zero is a no-op apart from the
`skip_merge = false` reset. -/
theorem foldLine_of_zero_line {d : DIRECTION} {st : MState}
    {line : List (Int × Int)}
    (h : ∀ p ∈ line, st.grid.cells.getD (st.grid.idx p.1 p.2) 0 = 0) :
    foldLine d st line = { st with skipMerge := false } := by
  unfold foldLine
  exact foldl_const _ _ _ (fun p hp => mergeStep_of_zero_cell (h p hp))

/-- Folding any number of all-zero lines only touches `skip_merge`. -/
theorem foldl_lines_zero {d : DIRECTION} :
    ∀ (Ls : List (List (Int × Int))) (st : MState),
    (∀ L ∈ Ls, ∀ p ∈ L, st.grid.cells.getD (st.grid.idx p.1 p.2) 0 = 0) →
    ∃ sk, Ls.foldl (foldLine d) st = { st with skipMerge := sk } := by
  intro Ls
  induction Ls with
  | nil => intro st _; exact ⟨st.skipMerge, rfl⟩
  | cons L rest ih =>
    intro st h
    rw [List.foldl_cons, foldLine_of_zero_line (h L (by simp))]
    obtain ⟨sk, hsk⟩ := ih { st with skipMerge := false }
      (fun L' hL' p hp => h L' (by simp [hL']) p hp)
    exact ⟨sk, by rw [hsk]⟩

theorem range_split (b h : Nat) (hb : b < h) :
    List.range h
      = List.range b ++ b :: ((List.range (h - b - 1)).map (fun k => b + 1 + k)) := by
  have h1 : List.range h = List.range b ++ (List.range (h - b)).map (b + ·) := by
    conv_lhs => rw [show h = b + (h - b) by omega]
    exact List.range_add b (h - b)
  have h2 : List.range (h - b) = 0 :: (List.range (h - b - 1)).map Nat.succ := by
    conv_lhs => rw [show h - b = (h - b - 1) + 1 by omega]
    exact List.range_succ_eq_map (h - b - 1)
  have h4 : ((b + ·) ∘ Nat.succ) = (fun k => b + 1 + k) := by
    funext k
    simp [Function.comp, Nat.succ_eq_add_one]
    omega
  rw [h1, h2, List.map_cons, List.map_map, h4]
  simp

theorem range_split2 (a w : Nat) (ha : a + 1 < w) :
    List.range w = List.range a
      ++ a :: (a + 1) :: ((List.range (w - a - 2)).map (fun k => a + 2 + k)) := by
  rw [range_split a w (by omega)]
  have h2 : List.range (w - a - 1) = 0 :: (List.range (w - a - 2)).map Nat.succ := by
    conv_lhs => rw [show w - a - 1 = (w - a - 2) + 1 by omega]
    exact List.range_succ_eq_map (w - a - 2)
  have h4 : ((fun k => a + 1 + k) ∘ Nat.succ) = (fun k => a + 2 + k) := by
    funext k
    simp [Function.comp, Nat.succ_eq_add_one]
    omega
  rw [h2, List.map_cons, List.map_map, h4]

theorem not_oob_of_bounds {g : Grid} {x y : Int} (hx0 : 0 ≤ x)
    (hxw : x < (g.width : Int)) (hy0 : 0 ≤ y) (hyh : y < (g.height : Int)) :
    ¬ g.oob x y := by
  rw [g.oob_iff]
  exact not_not_intro ⟨hx0, hxw, hy0, hyh⟩

theorem pairCells_at1 {cells : List Int} {i1 i2 : Nat} {v : Int}
    (hp : pairCells cells i1 i2 v) (h : i1 < cells.length) :
    cells.getD i1 0 = v := by
  rw [hp i1 h]
  simp

theorem pairCells_at2 {cells : List Int} {i1 i2 : Nat} {v : Int}
    (hp : pairCells cells i1 i2 v) (h : i2 < cells.length) :
    cells.getD i2 0 = v := by
  rw [hp i2 h]
  simp

theorem pairCells_out {cells : List Int} {i1 i2 : Nat} {v : Int}
    (hp : pairCells cells i1 i2 v) (j : Nat) (hj : j < cells.length)
    (h1 : j ≠ i1) (h2 : j ≠ i2) : cells.getD j 0 = 0 := by
  rw [hp j hj]
  simp [h1, h2]

theorem idx_ne_x {g : Grid} {x1 x2 y : Int} (h1 : ¬ g.oob x1 y)
    (h2 : ¬ g.oob x2 y) (hne : x1 ≠ x2) : g.idx x1 y ≠ g.idx x2 y :=
  idx_ne_of_ne h1 h2 (fun he => hne (congrArg Prod.fst he))

theorem idx_ne_y {g : Grid} {x y1 y2 : Int} (h1 : ¬ g.oob x y1)
    (h2 : ¬ g.oob x y2) (hne : y1 ≠ y2) : g.idx x y1 ≠ g.idx x y2 :=
  idx_ne_of_ne h1 h2 (fun he => hne (congrArg Prod.snd he))

/-- The slide of the left tile of an isolated horizontal pair in
direction LEFT: it lands on the left edge (or stays put when already
there), reporting no merge. -/
theorem mover_left {g : Grid} {v : Int} {a b : Nat} (hwf : g.WF)
    (ha : a + 1 < g.width) (hb : b < g.height) (hv : v ≠ 0)
    (hpair : pairCells g.cells (g.idx ↑a ↑b) (g.idx (↑a + 1) ↑b) v) :
    ∃ r gA, g.slide ↑a ↑b .LEFT false = .ok (r, gA) ∧ r ≤ 0 ∧
      sameShape g gA ∧ pairCells gA.cells (g.idx 0 ↑b) (g.idx (↑a + 1) ↑b) v := by
  have hoab : ¬ g.oob ↑a ↑b :=
    not_oob_of_bounds (by omega) (by omega) (by omega) (by omega)
  have hoa1b : ¬ g.oob (↑a + 1) ↑b :=
    not_oob_of_bounds (by omega) (by omega) (by omega) (by omega)
  have ho0b : ¬ g.oob 0 ↑b :=
    not_oob_of_bounds (by omega) (by omega) (by omega) (by omega)
  have hcur : g.cells.getD (g.idx ↑a ↑b) 0 = v :=
    pairCells_at1 hpair (g.idx_lt hwf hoab)
  have hget : g.get ↑a ↑b = .ok v := by
    rw [Grid.get_of_not_oob hoab, hcur]
  have hslide := slide_of_get_ok (d := .LEFT) (s := false) hget
  rw [if_neg hv] at hslide
  have hrun : slideLoop g ↑a ↑b .LEFT false v 1 (g.width + g.height)
      = slideStop g ↑a ↑b .LEFT v (↑a + 1) := by
    apply slideLoop_runs_to_stop (g.width + g.height) 1 (↑a + 1)
      (by omega) (by omega)
    · intro j hj1 hj2
      show g.get (↑a - j) ↑b = .ok 0
      have ho' : ¬ g.oob (↑a - j) ↑b :=
        not_oob_of_bounds (by omega) (by omega) (by omega) (by omega)
      rw [Grid.get_of_not_oob ho']
      congr 1
      exact pairCells_out hpair _ (g.idx_lt hwf ho')
        (idx_ne_x ho' hoab (by omega)) (idx_ne_x ho' hoa1b (by omega))
    · refine ⟨.outOfRange, ?_⟩
      show g.get (↑a - (↑a + 1)) ↑b = .error .outOfRange
      exact Grid.get_of_oob (by unfold Grid.oob; omega)
  rw [hrun] at hslide
  refine ⟨(slideStop g ↑a ↑b .LEFT v (↑a + 1)).1,
    (slideStop g ↑a ↑b .LEFT v (↑a + 1)).2, hslide, ?_, ?_, ?_⟩
  · unfold slideStop
    split <;> norm_num
  · exact sameShape_slideStop ..
  · by_cases hgt : (1 : Int) < ↑a + 1
    · have hstop : slideStop g ↑a ↑b .LEFT v (↑a + 1)
          = (0, (g.setCell 0 ↑b v).setCell ↑a ↑b 0) := by
        unfold slideStop
        rw [if_pos hgt]
        unfold Grid.setDire
        simp [sub_self]
      rw [hstop]
      have n01 : g.idx 0 ↑b ≠ g.idx ↑a ↑b := idx_ne_x ho0b hoab (by omega)
      have n02 : g.idx 0 ↑b ≠ g.idx (↑a + 1) ↑b := idx_ne_x ho0b hoa1b (by omega)
      have n12 : g.idx ↑a ↑b ≠ g.idx (↑a + 1) ↑b := idx_ne_x hoab hoa1b (by omega)
      intro j hj
      have hlen : j < g.cells.length := by simpa using hj
      rw [getD_setCell 0 (WF_setCell hwf 0 ↑b v)
        (by rw [oob_setCell]; exact hoab) j, idx_setCell,
        getD_setCell v hwf ho0b j]
      by_cases hj1 : j = g.idx ↑a ↑b
      · have hnor : ¬(j = g.idx 0 ↑b ∨ j = g.idx (↑a + 1) ↑b) := by
          rintro (h | h)
          · exact n01 (h.symm.trans hj1)
          · exact n12 ((h.symm.trans hj1).symm)
        rw [if_pos hj1, if_neg hnor]
      · rw [if_neg hj1]
        by_cases hj0 : j = g.idx 0 ↑b
        · rw [if_pos hj0, if_pos (Or.inl hj0)]
        · rw [if_neg hj0]
          by_cases hj2 : j = g.idx (↑a + 1) ↑b
          · rw [if_pos (Or.inr hj2), hj2]
            exact pairCells_at2 hpair (g.idx_lt hwf hoa1b)
          · rw [if_neg (by rintro (h | h); exacts [hj0 h, hj2 h])]
            exact pairCells_out hpair j hlen hj1 hj2
    · have haz : (↑a : Int) = 0 := by omega
      have hstop : slideStop g ↑a ↑b .LEFT v (↑a + 1)
          = (-1, g) := by
        unfold slideStop
        rw [if_neg hgt]
      rw [hstop, show g.idx 0 ↑b = g.idx ↑a ↑b by rw [haz]]
      exact hpair

theorem toInt32_eq_self {n : Int} (h1 : -2 ^ 31 ≤ n) (h2 : n < 2 ^ 31) :
    toInt32 n = n := by
  unfold toInt32
  omega

/-- The slide of the right tile of the pair after the left tile has
settled on the edge: it merges into the edge tile, doubling it.  The
bound `2v < 2^31` keeps the doubled value representable in the `int`
returned by `Grid::slide`. -/
theorem merger_left {g gA : Grid} {v : Int} {a b : Nat} (hwf : g.WF)
    (hsh : sameShape g gA) (ha : a + 1 < g.width) (hb : b < g.height)
    (hv0 : 0 < v) (hv31 : 2 * v < 2 ^ 31)
    (hpa : pairCells gA.cells (g.idx 0 ↑b) (g.idx (↑a + 1) ↑b) v) :
    ∃ g2, gA.slide (↑a + 1) ↑b .LEFT false = .ok (2 * v, g2) ∧
      sameShape g g2 ∧ oneCell g2.cells (g.idx 0 ↑b) (2 * v) := by
  have hv : v ≠ 0 := by omega
  have hwfA : gA.WF := WF_of_sameShape hwf hsh
  have hoa1b : ¬ g.oob (↑a + 1) ↑b :=
    not_oob_of_bounds (by omega) (by omega) (by omega) (by omega)
  have ho0b : ¬ g.oob 0 ↑b :=
    not_oob_of_bounds (by omega) (by omega) (by omega) (by omega)
  have hoa1bA : ¬ gA.oob (↑a + 1) ↑b := by
    rw [oob_of_sameShape hsh]
    exact hoa1b
  have ho0bA : ¬ gA.oob 0 ↑b := by
    rw [oob_of_sameShape hsh]
    exact ho0b
  have hlenA : gA.cells.length = g.cells.length := hsh.2.2.2
  have hcur : gA.cells.getD (g.idx (↑a + 1) ↑b) 0 = v :=
    pairCells_at2 hpa (by rw [hlenA]; exact g.idx_lt hwf hoa1b)
  have hget : gA.get (↑a + 1) ↑b = .ok v := by
    rw [Grid.get_of_not_oob hoa1bA, idx_of_sameShape hsh, hcur]
  have hslide := slide_of_get_ok (d := .LEFT) (s := false) hget
  rw [if_neg hv] at hslide
  have hw := hsh.1
  have hh := hsh.2.1
  have hrun := slideLoop_runs_to_hit (g := gA) (x := ↑a + 1) (y := ↑b)
    (d := .LEFT) (s := false) (c := v)
    (gA.width + gA.height) 1 (↑a + 1) v (by omega) (by omega)
    (?_ : ∀ j : Int, 1 ≤ j → j < ↑a + 1 → gA.getDire (↑a + 1) ↑b .LEFT j = .ok 0)
    (?_ : gA.getDire (↑a + 1) ↑b .LEFT (↑a + 1) = .ok v) hv
  rotate_left
  · intro j hj1 hj2
    show gA.get (↑a + 1 - j) ↑b = .ok 0
    have ho' : ¬ g.oob (↑a + 1 - j) ↑b :=
      not_oob_of_bounds (by omega) (by omega) (by omega) (by omega)
    have ho'A : ¬ gA.oob (↑a + 1 - j) ↑b := by
      rw [oob_of_sameShape hsh]
      exact ho'
    rw [Grid.get_of_not_oob ho'A, idx_of_sameShape hsh]
    congr 1
    exact pairCells_out hpa _ (by rw [hlenA]; exact g.idx_lt hwf ho')
      (idx_ne_x ho' ho0b (by omega)) (idx_ne_x ho' hoa1b (by omega))
  · show gA.get (↑a + 1 - (↑a + 1)) ↑b = .ok v
    rw [show (↑a + 1 - (↑a + 1) : Int) = 0 by ring]
    rw [Grid.get_of_not_oob ho0bA, idx_of_sameShape hsh]
    congr 1
    exact pairCells_at1 hpa (by rw [hlenA]; exact g.idx_lt hwf ho0b)
  rw [if_neg (by simp), if_pos rfl] at hrun
  rw [toInt32_eq_self (by omega) hv31] at hrun
  rw [hrun] at hslide
  have hsd : gA.setDire (↑a + 1) ↑b .LEFT (↑a + 1) (2 * v)
      = gA.setCell 0 ↑b (2 * v) := by
    unfold Grid.setDire
    simp
  rw [hsd] at hslide
  refine ⟨(gA.setCell 0 ↑b (2 * v)).setCell (↑a + 1) ↑b 0, hslide, ?_, ?_⟩
  · exact sameShape_trans hsh
      (sameShape_trans (sameShape_setCell ..) (sameShape_setCell ..))
  · have n02 : g.idx 0 ↑b ≠ g.idx (↑a + 1) ↑b := idx_ne_x ho0b hoa1b (by omega)
    intro j hj
    have hlen : j < g.cells.length := by
      rw [← hlenA]
      simpa using hj
    rw [getD_setCell 0 (WF_setCell hwfA 0 ↑b (2 * v))
      (by rw [oob_setCell]; exact hoa1bA) j, idx_setCell,
      getD_setCell (2 * v) hwfA ho0bA j,
      idx_of_sameShape hsh (↑a + 1) ↑b, idx_of_sameShape hsh 0 ↑b]
    by_cases hj2 : j = g.idx (↑a + 1) ↑b
    · rw [if_pos hj2, if_neg (fun h : j = g.idx 0 ↑b => n02 (h.symm.trans hj2))]
    · rw [if_neg hj2]
      by_cases hj0 : j = g.idx 0 ↑b
      · rw [if_pos hj0, if_pos hj0]
      · rw [if_neg hj0, if_neg hj0]
        exact pairCells_out hpa j (by rw [hlenA]; exact hlen) hj0 hj2

/-- Folding the whole pair row in direction LEFT: the left tile
settles on the edge, the right tile merges into it, everything else is
empty and does not move. -/
theorem foldLine_pair_left {g : Grid} {v : Int} {a b : Nat} (hwf : g.WF)
    (ha : a + 1 < g.width) (hb : b < g.height) (hv : 0 < v)
    (hv31 : 2 * v < 2 ^ 31)
    (hpair : pairCells g.cells (g.idx ↑a ↑b) (g.idx (↑a + 1) ↑b) v)
    (sk0 : Bool) :
    ∃ g2, foldLine .LEFT ⟨g, 0, sk0, false⟩
        ((List.range g.width).map (fun (x : Nat) => ((x : Int), (b : Int))))
        = ⟨g2, 2 * v, true, true⟩ ∧
      sameShape g g2 ∧ oneCell g2.cells (g.idx 0 ↑b) (2 * v) := by
  have hoab : ¬ g.oob ↑a ↑b :=
    not_oob_of_bounds (by omega) (by omega) (by omega) (by omega)
  have hoa1b : ¬ g.oob (↑a + 1) ↑b :=
    not_oob_of_bounds (by omega) (by omega) (by omega) (by omega)
  obtain ⟨r, gA, hsl, hr, hshA, hpA⟩ := mover_left hwf ha hb (by omega) hpair
  obtain ⟨g2, hsl2, hsh2, hone⟩ := merger_left hwf hshA ha hb hv hv31 hpA
  have hwf2 : g2.WF := WF_of_sameShape hwf hsh2
  show ∃ g2, List.foldl (mergeStep .LEFT) ⟨g, 0, false, false⟩
      ((List.range g.width).map (fun (x : Nat) => ((x : Int), (b : Int))))
      = ⟨g2, 2 * v, true, true⟩ ∧
    sameShape g g2 ∧ oneCell g2.cells (g.idx 0 ↑b) (2 * v)
  rw [range_split2 a g.width ha]
  simp only [List.map_append, List.map_cons, List.foldl_append, List.foldl_cons]
  have hP1 : List.foldl (mergeStep .LEFT) ⟨g, 0, false, false⟩
      ((List.range a).map (fun (x : Nat) => ((x : Int), (b : Int))))
      = ⟨g, 0, false, false⟩ := by
    apply foldl_const
    intro p hp
    obtain ⟨x, hx, rfl⟩ := List.mem_map.mp hp
    have hxa : x < a := List.mem_range.mp hx
    have ho' : ¬ g.oob ↑x ↑b :=
      not_oob_of_bounds (by omega) (by omega) (by omega) (by omega)
    exact mergeStep_of_zero_cell
      (pairCells_out hpair _ (g.idx_lt hwf ho')
        (idx_ne_x ho' hoab (by omega)) (idx_ne_x ho' hoa1b (by omega)))
  rw [hP1]
  have hstA : mergeStep .LEFT ⟨g, 0, false, false⟩ (↑a, ↑b)
      = ⟨gA, 0, false, if 0 ≤ r then true else false⟩ := by
    rw [mergeStep_of_slide_ok hsl]
    simp only [if_neg (show ¬ (0 : Int) < r by omega)]
  rw [hstA]
  rw [show ((a + 1 : Nat) : Int) = (a : Int) + 1 by push_cast; ring]
  have hstB : mergeStep .LEFT ⟨gA, 0, false, if 0 ≤ r then true else false⟩
      (↑a + 1, ↑b) = ⟨g2, 2 * v, true, true⟩ := by
    rw [mergeStep_of_slide_ok hsl2]
    have h1 : (0 : Int) < 2 * v := by linarith
    simp [h1, le_of_lt h1]
  rw [hstB]
  refine ⟨g2, ?_, hsh2, hone⟩
  apply foldl_const
  intro p hp
  rw [List.map_map] at hp
  obtain ⟨k, hk, rfl⟩ := List.mem_map.mp hp
  have hkr : k < g.width - a - 2 := List.mem_range.mp hk
  have ho' : ¬ g.oob ↑(a + 2 + k) ↑b :=
    not_oob_of_bounds (by omega) (by omega) (by omega) (by omega)
  have ho'2 : ¬ g2.oob ↑(a + 2 + k) ↑b := by
    rw [oob_of_sameShape hsh2]
    exact ho'
  apply mergeStep_of_zero_cell
  show g2.cells.getD (g2.idx ↑(a + 2 + k) ↑b) 0 = 0
  rw [idx_of_sameShape hsh2]
  rw [hone _ (by rw [hsh2.2.2.2]; exact g.idx_lt hwf ho')]
  rw [if_neg]
  have ho0b : ¬ g.oob 0 ↑b :=
    not_oob_of_bounds (by omega) (by omega) (by omega) (by omega)
  exact idx_ne_x ho' ho0b (by push_cast; omega)

theorem scanLines_LEFT (w h : Nat) : scanLines .LEFT w h
    = (List.range h).map
      (fun (y : Nat) => (List.range w).map (fun (x : Nat) => ((x : Int), (y : Int)))) := rfl

theorem scanLines_RIGHT (w h : Nat) : scanLines .RIGHT w h
    = (List.range h).map (fun (y : Nat) =>
      (List.range w).map (fun (xi : Nat) => ((w : Int) - 1 - (xi : Int), (y : Int)))) := rfl

theorem scanLines_UP (w h : Nat) : scanLines .UP w h
    = (List.range w).map
      (fun (x : Nat) => (List.range h).map (fun (y : Nat) => ((x : Int), (y : Int)))) := rfl

theorem scanLines_DOWN (w h : Nat) : scanLines .DOWN w h
    = (List.range w).map (fun (x : Nat) =>
      (List.range h).map (fun (yi : Nat) => ((x : Int), (h : Int) - 1 - (yi : Int)))) := rfl

theorem pt_ne_of_x {x1 y1 x2 y2 : Int} (h : x1 ≠ x2) : (x1, y1) ≠ (x2, y2) :=
  fun he => h (congrArg Prod.fst he)

theorem pt_ne_of_y {x1 y1 x2 y2 : Int} (h : y1 ≠ y2) : (x1, y1) ≠ (x2, y2) :=
  fun he => h (congrArg Prod.snd he)

/-- `only_merge` LEFT on a grid holding exactly one isolated horizontal
pair: the pair merges to a single tile of double value on the left
edge of its row, the returned score is the merged value, and a motion
is reported. -/
theorem only_merge_pair_left {g : Grid} {v : Int} {a b : Nat} (hwf : g.WF)
    (ha : a + 1 < g.width) (hb : b < g.height) (hv : 0 < v)
    (hv31 : 2 * v < 2 ^ 31)
    (hpair : pairCells g.cells (g.idx ↑a ↑b) (g.idx (↑a + 1) ↑b) v) :
    ∃ gF, g.only_merge .LEFT = (2 * v, true, gF) ∧ sameShape g gF ∧
      oneCell gF.cells (g.idx 0 ↑b) (2 * v) := by
  have hoab : ¬ g.oob ↑a ↑b :=
    not_oob_of_bounds (by omega) (by omega) (by omega) (by omega)
  have hoa1b : ¬ g.oob (↑a + 1) ↑b :=
    not_oob_of_bounds (by omega) (by omega) (by omega) (by omega)
  have ho0b : ¬ g.oob 0 ↑b :=
    not_oob_of_bounds (by omega) (by omega) (by omega) (by omega)
  unfold Grid.only_merge
  rw [scanLines_LEFT, range_split b g.height hb]
  simp only [List.map_append, List.map_cons, List.foldl_append, List.foldl_cons]
  have hzpre : ∀ L ∈ (List.range b).map
      (fun (y : Nat) => (List.range g.width).map (fun (x : Nat) => ((x : Int), (y : Int)))),
      ∀ p ∈ L, g.cells.getD (g.idx p.1 p.2) 0 = 0 := by
    intro L hL p hp
    obtain ⟨y, hy, rfl⟩ := List.mem_map.mp hL
    obtain ⟨x, hx, rfl⟩ := List.mem_map.mp hp
    have hyb : y < b := List.mem_range.mp hy
    have hxw : x < g.width := List.mem_range.mp hx
    have ho' : ¬ g.oob ↑x ↑y :=
      not_oob_of_bounds (by omega) (by omega) (by omega) (by omega)
    exact pairCells_out hpair _ (g.idx_lt hwf ho')
      (idx_ne_of_ne ho' hoab (pt_ne_of_y (by omega)))
      (idx_ne_of_ne ho' hoa1b (pt_ne_of_y (by omega)))
  obtain ⟨sk1, hpre⟩ := foldl_lines_zero (d := .LEFT)
    ((List.range b).map
      (fun (y : Nat) => (List.range g.width).map (fun (x : Nat) => ((x : Int), (y : Int)))))
    ⟨g, 0, false, false⟩ hzpre
  rw [hpre, show ({ (⟨g, 0, false, false⟩ : MState) with skipMerge := sk1 })
      = (⟨g, 0, sk1, false⟩ : MState) from rfl]
  obtain ⟨g2, hrow, hsh2, hone⟩ := foldLine_pair_left hwf ha hb hv hv31 hpair sk1
  rw [hrow]
  have hzpost : ∀ L ∈ ((List.range (g.height - b - 1)).map (fun k => b + 1 + k)).map
      (fun (y : Nat) => (List.range g.width).map (fun (x : Nat) => ((x : Int), (y : Int)))),
      ∀ p ∈ L, g2.cells.getD (g2.idx p.1 p.2) 0 = 0 := by
    intro L hL p hp
    rw [List.map_map] at hL
    obtain ⟨k, hk, rfl⟩ := List.mem_map.mp hL
    obtain ⟨x, hx, rfl⟩ := List.mem_map.mp hp
    have hkb : k < g.height - b - 1 := List.mem_range.mp hk
    have hxw : x < g.width := List.mem_range.mp hx
    have ho' : ¬ g.oob ↑x ↑(b + 1 + k) :=
      not_oob_of_bounds (by omega) (by omega) (by omega) (by omega)
    have ho'2 : ¬ g2.oob ↑x ↑(b + 1 + k) := by
      rw [oob_of_sameShape hsh2]
      exact ho'
    show g2.cells.getD (g2.idx ↑x ↑(b + 1 + k)) 0 = 0
    rw [idx_of_sameShape hsh2,
      hone _ (by rw [hsh2.2.2.2]; exact g.idx_lt hwf ho'), if_neg]
    exact idx_ne_of_ne ho' ho0b (pt_ne_of_y (by push_cast; omega))
  obtain ⟨sk2, hpost⟩ := foldl_lines_zero (d := .LEFT)
    (((List.range (g.height - b - 1)).map (fun k => b + 1 + k)).map
      (fun (y : Nat) => (List.range g.width).map (fun (x : Nat) => ((x : Int), (y : Int)))))
    ⟨g2, 2 * v, true, true⟩ hzpost
  rw [hpost]
  exact ⟨g2, rfl, hsh2, hone⟩

/-- The slide of the right tile of an isolated horizontal pair in
direction RIGHT: it lands on the right edge (or stays put when already
there), reporting no merge. -/
theorem mover_right {g : Grid} {v : Int} {a b : Nat} (hwf : g.WF)
    (ha : a + 1 < g.width) (hb : b < g.height) (hv : v ≠ 0)
    (hpair : pairCells g.cells (g.idx ↑a ↑b) (g.idx (↑a + 1) ↑b) v) :
    ∃ r gA, g.slide (↑a + 1) ↑b .RIGHT false = .ok (r, gA) ∧ r ≤ 0 ∧
      sameShape g gA ∧
      pairCells gA.cells (g.idx ↑a ↑b) (g.idx ((g.width : Int) - 1) ↑b) v := by
  have hoab : ¬ g.oob ↑a ↑b :=
    not_oob_of_bounds (by omega) (by omega) (by omega) (by omega)
  have hoa1b : ¬ g.oob (↑a + 1) ↑b :=
    not_oob_of_bounds (by omega) (by omega) (by omega) (by omega)
  have hoeb : ¬ g.oob ((g.width : Int) - 1) ↑b :=
    not_oob_of_bounds (by omega) (by omega) (by omega) (by omega)
  have hcur : g.cells.getD (g.idx (↑a + 1) ↑b) 0 = v :=
    pairCells_at2 hpair (g.idx_lt hwf hoa1b)
  have hget : g.get (↑a + 1) ↑b = .ok v := by
    rw [Grid.get_of_not_oob hoa1b, hcur]
  have hslide := slide_of_get_ok (d := .RIGHT) (s := false) hget
  rw [if_neg hv] at hslide
  have hrun : slideLoop g (↑a + 1) ↑b .RIGHT false v 1 (g.width + g.height)
      = slideStop g (↑a + 1) ↑b .RIGHT v ((g.width : Int) - ↑a - 1) := by
    apply slideLoop_runs_to_stop (g.width + g.height) 1 ((g.width : Int) - ↑a - 1)
      (by omega) (by omega)
    · intro j hj1 hj2
      show g.get (↑a + 1 + j) ↑b = .ok 0
      have ho' : ¬ g.oob (↑a + 1 + j) ↑b :=
        not_oob_of_bounds (by omega) (by omega) (by omega) (by omega)
      rw [Grid.get_of_not_oob ho']
      congr 1
      exact pairCells_out hpair _ (g.idx_lt hwf ho')
        (idx_ne_x ho' hoab (by omega)) (idx_ne_x ho' hoa1b (by omega))
    · refine ⟨.outOfRange, ?_⟩
      show g.get (↑a + 1 + ((g.width : Int) - ↑a - 1)) ↑b = .error .outOfRange
      exact Grid.get_of_oob (by unfold Grid.oob; omega)
  rw [hrun] at hslide
  refine ⟨(slideStop g (↑a + 1) ↑b .RIGHT v ((g.width : Int) - ↑a - 1)).1,
    (slideStop g (↑a + 1) ↑b .RIGHT v ((g.width : Int) - ↑a - 1)).2, hslide, ?_, ?_, ?_⟩
  · unfold slideStop
    split <;> norm_num
  · exact sameShape_slideStop ..
  · by_cases hgt : (1 : Int) < (g.width : Int) - ↑a - 1
    · have hstop : slideStop g (↑a + 1) ↑b .RIGHT v ((g.width : Int) - ↑a - 1)
          = (0, (g.setCell ((g.width : Int) - 1) ↑b v).setCell (↑a + 1) ↑b 0) := by
        unfold slideStop
        rw [if_pos hgt]
        unfold Grid.setDire
        have hds : (↑a + 1 + ((g.width : Int) - ↑a - 1 - 1)) = (g.width : Int) - 1 := by
          ring
        simp [hds]
      rw [hstop]
      have n1e : g.idx ↑a ↑b ≠ g.idx ((g.width : Int) - 1) ↑b :=
        idx_ne_x hoab hoeb (by omega)
      have n2e : g.idx (↑a + 1) ↑b ≠ g.idx ((g.width : Int) - 1) ↑b :=
        idx_ne_x hoa1b hoeb (by omega)
      have n12 : g.idx ↑a ↑b ≠ g.idx (↑a + 1) ↑b := idx_ne_x hoab hoa1b (by omega)
      intro j hj
      have hlen : j < g.cells.length := by simpa using hj
      rw [getD_setCell 0 (WF_setCell hwf ((g.width : Int) - 1) ↑b v)
        (by rw [oob_setCell]; exact hoa1b) j, idx_setCell,
        getD_setCell v hwf hoeb j]
      by_cases hj2 : j = g.idx (↑a + 1) ↑b
      · have hnor : ¬(j = g.idx ↑a ↑b ∨ j = g.idx ((g.width : Int) - 1) ↑b) := by
          rintro (h | h)
          · exact n12 (h.symm.trans hj2)
          · exact n2e (hj2.symm.trans h)
        rw [if_pos hj2, if_neg hnor]
      · rw [if_neg hj2]
        by_cases hje : j = g.idx ((g.width : Int) - 1) ↑b
        · rw [if_pos hje, if_pos (Or.inr hje)]
        · rw [if_neg hje]
          by_cases hj1 : j = g.idx ↑a ↑b
          · rw [if_pos (Or.inl hj1), hj1]
            exact pairCells_at1 hpair (g.idx_lt hwf hoab)
          · rw [if_neg (by rintro (h | h); exacts [hj1 h, hje h])]
            exact pairCells_out hpair j hlen hj1 hj2
    · have haz : (↑a : Int) + 1 = (g.width : Int) - 1 := by omega
      have hstop : slideStop g (↑a + 1) ↑b .RIGHT v ((g.width : Int) - ↑a - 1)
          = (-1, g) := by
        unfold slideStop
        rw [if_neg hgt]
      rw [hstop, show g.idx ((g.width : Int) - 1) ↑b = g.idx (↑a + 1) ↑b by rw [haz]]
      exact hpair

/-- The slide of the left tile of the pair after the right tile has
settled on the right edge: it merges into the edge tile. -/
theorem merger_right {g gA : Grid} {v : Int} {a b : Nat} (hwf : g.WF)
    (hsh : sameShape g gA) (ha : a + 1 < g.width) (hb : b < g.height)
    (hv0 : 0 < v) (hv31 : 2 * v < 2 ^ 31)
    (hpa : pairCells gA.cells (g.idx ↑a ↑b) (g.idx ((g.width : Int) - 1) ↑b) v) :
    ∃ g2, gA.slide ↑a ↑b .RIGHT false = .ok (2 * v, g2) ∧
      sameShape g g2 ∧ oneCell g2.cells (g.idx ((g.width : Int) - 1) ↑b) (2 * v) := by
  have hv : v ≠ 0 := by omega
  have hwfA : gA.WF := WF_of_sameShape hwf hsh
  have hoab : ¬ g.oob ↑a ↑b :=
    not_oob_of_bounds (by omega) (by omega) (by omega) (by omega)
  have hoeb : ¬ g.oob ((g.width : Int) - 1) ↑b :=
    not_oob_of_bounds (by omega) (by omega) (by omega) (by omega)
  have hoabA : ¬ gA.oob ↑a ↑b := by
    rw [oob_of_sameShape hsh]
    exact hoab
  have hoebA : ¬ gA.oob ((g.width : Int) - 1) ↑b := by
    rw [oob_of_sameShape hsh]
    exact hoeb
  have hlenA : gA.cells.length = g.cells.length := hsh.2.2.2
  have hcur : gA.cells.getD (g.idx ↑a ↑b) 0 = v :=
    pairCells_at1 hpa (by rw [hlenA]; exact g.idx_lt hwf hoab)
  have hget : gA.get ↑a ↑b = .ok v := by
    rw [Grid.get_of_not_oob hoabA, idx_of_sameShape hsh, hcur]
  have hslide := slide_of_get_ok (d := .RIGHT) (s := false) hget
  rw [if_neg hv] at hslide
  have hw := hsh.1
  have hh := hsh.2.1
  have hrun := slideLoop_runs_to_hit (g := gA) (x := ↑a) (y := ↑b)
    (d := .RIGHT) (s := false) (c := v)
    (gA.width + gA.height) 1 ((g.width : Int) - 1 - ↑a) v (by omega) (by omega)
    (?_ : ∀ j : Int, 1 ≤ j → j < (g.width : Int) - 1 - ↑a →
      gA.getDire ↑a ↑b .RIGHT j = .ok 0)
    (?_ : gA.getDire ↑a ↑b .RIGHT ((g.width : Int) - 1 - ↑a) = .ok v) hv
  rotate_left
  · intro j hj1 hj2
    show gA.get (↑a + j) ↑b = .ok 0
    have ho' : ¬ g.oob (↑a + j) ↑b :=
      not_oob_of_bounds (by omega) (by omega) (by omega) (by omega)
    have ho'A : ¬ gA.oob (↑a + j) ↑b := by
      rw [oob_of_sameShape hsh]
      exact ho'
    rw [Grid.get_of_not_oob ho'A, idx_of_sameShape hsh]
    congr 1
    exact pairCells_out hpa _ (by rw [hlenA]; exact g.idx_lt hwf ho')
      (idx_ne_x ho' hoab (by omega)) (idx_ne_x ho' hoeb (by omega))
  · show gA.get (↑a + ((g.width : Int) - 1 - ↑a)) ↑b = .ok v
    rw [show (↑a + ((g.width : Int) - 1 - ↑a)) = (g.width : Int) - 1 by ring]
    rw [Grid.get_of_not_oob hoebA, idx_of_sameShape hsh]
    congr 1
    exact pairCells_at2 hpa (by rw [hlenA]; exact g.idx_lt hwf hoeb)
  rw [if_neg (by simp), if_pos rfl] at hrun
  rw [toInt32_eq_self (by omega) hv31] at hrun
  rw [hrun] at hslide
  have hsd : gA.setDire ↑a ↑b .RIGHT ((g.width : Int) - 1 - ↑a) (2 * v)
      = gA.setCell ((g.width : Int) - 1) ↑b (2 * v) := by
    unfold Grid.setDire
    have hds2 : (↑a + ((g.width : Int) - 1 - ↑a)) = (g.width : Int) - 1 := by ring
    simp [hds2]
  rw [hsd] at hslide
  refine ⟨(gA.setCell ((g.width : Int) - 1) ↑b (2 * v)).setCell ↑a ↑b 0, hslide, ?_, ?_⟩
  · exact sameShape_trans hsh
      (sameShape_trans (sameShape_setCell ..) (sameShape_setCell ..))
  · have n1e : g.idx ↑a ↑b ≠ g.idx ((g.width : Int) - 1) ↑b :=
      idx_ne_x hoab hoeb (by omega)
    intro j hj
    have hlen : j < g.cells.length := by
      rw [← hlenA]
      simpa using hj
    rw [getD_setCell 0 (WF_setCell hwfA ((g.width : Int) - 1) ↑b (2 * v))
      (by rw [oob_setCell]; exact hoabA) j, idx_setCell,
      getD_setCell (2 * v) hwfA hoebA j,
      idx_of_sameShape hsh ↑a ↑b, idx_of_sameShape hsh ((g.width : Int) - 1) ↑b]
    by_cases hj1 : j = g.idx ↑a ↑b
    · rw [if_pos hj1,
        if_neg (fun h : j = g.idx ((g.width : Int) - 1) ↑b => n1e (hj1.symm.trans h))]
    · rw [if_neg hj1]
      by_cases hje : j = g.idx ((g.width : Int) - 1) ↑b
      · rw [if_pos hje, if_pos hje]
      · rw [if_neg hje, if_neg hje]
        exact pairCells_out hpa j (by rw [hlenA]; exact hlen) hj1 hje

/-- Folding the whole pair row in direction RIGHT. -/
theorem foldLine_pair_right {g : Grid} {v : Int} {a b : Nat} (hwf : g.WF)
    (ha : a + 1 < g.width) (hb : b < g.height) (hv : 0 < v)
    (hv31 : 2 * v < 2 ^ 31)
    (hpair : pairCells g.cells (g.idx ↑a ↑b) (g.idx (↑a + 1) ↑b) v)
    (sk0 : Bool) :
    ∃ g2, foldLine .RIGHT ⟨g, 0, sk0, false⟩
        ((List.range g.width).map
          (fun (xi : Nat) => ((g.width : Int) - 1 - (xi : Int), (b : Int))))
        = ⟨g2, 2 * v, true, true⟩ ∧
      sameShape g g2 ∧ oneCell g2.cells (g.idx ((g.width : Int) - 1) ↑b) (2 * v) := by
  have hoab : ¬ g.oob ↑a ↑b :=
    not_oob_of_bounds (by omega) (by omega) (by omega) (by omega)
  have hoa1b : ¬ g.oob (↑a + 1) ↑b :=
    not_oob_of_bounds (by omega) (by omega) (by omega) (by omega)
  have hoeb : ¬ g.oob ((g.width : Int) - 1) ↑b :=
    not_oob_of_bounds (by omega) (by omega) (by omega) (by omega)
  obtain ⟨r, gA, hsl, hr, hshA, hpA⟩ := mover_right hwf ha hb (by omega) hpair
  obtain ⟨g2, hsl2, hsh2, hone⟩ := merger_right hwf hshA ha hb hv hv31 hpA
  have hwf2 : g2.WF := WF_of_sameShape hwf hsh2
  show ∃ g2, List.foldl (mergeStep .RIGHT) ⟨g, 0, false, false⟩
      ((List.range g.width).map
        (fun (xi : Nat) => ((g.width : Int) - 1 - (xi : Int), (b : Int))))
      = ⟨g2, 2 * v, true, true⟩ ∧
    sameShape g g2 ∧ oneCell g2.cells (g.idx ((g.width : Int) - 1) ↑b) (2 * v)
  rw [range_split2 (g.width - a - 2) g.width (by omega)]
  simp only [List.map_append, List.map_cons, List.foldl_append, List.foldl_cons]
  have hP1 : List.foldl (mergeStep .RIGHT) ⟨g, 0, false, false⟩
      ((List.range (g.width - a - 2)).map
        (fun (xi : Nat) => ((g.width : Int) - 1 - (xi : Int), (b : Int))))
      = ⟨g, 0, false, false⟩ := by
    apply foldl_const
    intro p hp
    obtain ⟨xi, hxi, rfl⟩ := List.mem_map.mp hp
    have hxa : xi < g.width - a - 2 := List.mem_range.mp hxi
    have ho' : ¬ g.oob ((g.width : Int) - 1 - ↑xi) ↑b :=
      not_oob_of_bounds (by omega) (by omega) (by omega) (by omega)
    exact mergeStep_of_zero_cell
      (pairCells_out hpair _ (g.idx_lt hwf ho')
        (idx_ne_x ho' hoab (by omega)) (idx_ne_x ho' hoa1b (by omega)))
  rw [hP1]
  rw [show ((g.width : Int) - 1 - ↑(g.width - a - 2)) = ↑a + 1 by omega]
  have hstA : mergeStep .RIGHT ⟨g, 0, false, false⟩ (↑a + 1, ↑b)
      = ⟨gA, 0, false, if 0 ≤ r then true else false⟩ := by
    rw [mergeStep_of_slide_ok hsl]
    simp only [if_neg (show ¬ (0 : Int) < r by omega)]
  rw [hstA]
  rw [show ((g.width : Int) - 1 - ↑(g.width - a - 2 + 1)) = ↑a by omega]
  have hstB : mergeStep .RIGHT ⟨gA, 0, false, if 0 ≤ r then true else false⟩
      (↑a, ↑b) = ⟨g2, 2 * v, true, true⟩ := by
    rw [mergeStep_of_slide_ok hsl2]
    have h1 : (0 : Int) < 2 * v := by linarith
    simp [h1, le_of_lt h1]
  rw [hstB]
  refine ⟨g2, ?_, hsh2, hone⟩
  apply foldl_const
  intro p hp
  rw [List.map_map] at hp
  obtain ⟨k, hk, rfl⟩ := List.mem_map.mp hp
  have hkr : k < g.width - (g.width - a - 2) - 2 := List.mem_range.mp hk
  have ho' : ¬ g.oob ((g.width : Int) - 1 - ↑(g.width - a - 2 + 2 + k)) ↑b :=
    not_oob_of_bounds (by omega) (by omega) (by omega) (by omega)
  apply mergeStep_of_zero_cell
  show g2.cells.getD
    (g2.idx ((g.width : Int) - 1 - ↑(g.width - a - 2 + 2 + k)) ↑b) 0 = 0
  rw [idx_of_sameShape hsh2,
    hone _ (by rw [hsh2.2.2.2]; exact g.idx_lt hwf ho'), if_neg]
  exact idx_ne_x ho' hoeb (by omega)

/-- `only_merge` RIGHT on a grid holding exactly one isolated
horizontal pair: the pair merges to a single doubled tile on the right
edge of its row. -/
theorem only_merge_pair_right {g : Grid} {v : Int} {a b : Nat} (hwf : g.WF)
    (ha : a + 1 < g.width) (hb : b < g.height) (hv : 0 < v)
    (hv31 : 2 * v < 2 ^ 31)
    (hpair : pairCells g.cells (g.idx ↑a ↑b) (g.idx (↑a + 1) ↑b) v) :
    ∃ gF, g.only_merge .RIGHT = (2 * v, true, gF) ∧ sameShape g gF ∧
      oneCell gF.cells (g.idx ((g.width : Int) - 1) ↑b) (2 * v) := by
  have hoab : ¬ g.oob ↑a ↑b :=
    not_oob_of_bounds (by omega) (by omega) (by omega) (by omega)
  have hoa1b : ¬ g.oob (↑a + 1) ↑b :=
    not_oob_of_bounds (by omega) (by omega) (by omega) (by omega)
  have hoeb : ¬ g.oob ((g.width : Int) - 1) ↑b :=
    not_oob_of_bounds (by omega) (by omega) (by omega) (by omega)
  unfold Grid.only_merge
  rw [scanLines_RIGHT, range_split b g.height hb]
  simp only [List.map_append, List.map_cons, List.foldl_append, List.foldl_cons]
  have hzpre : ∀ L ∈ (List.range b).map
      (fun (y : Nat) => (List.range g.width).map
        (fun (xi : Nat) => ((g.width : Int) - 1 - (xi : Int), (y : Int)))),
      ∀ p ∈ L, g.cells.getD (g.idx p.1 p.2) 0 = 0 := by
    intro L hL p hp
    obtain ⟨y, hy, rfl⟩ := List.mem_map.mp hL
    obtain ⟨xi, hxi, rfl⟩ := List.mem_map.mp hp
    have hyb : y < b := List.mem_range.mp hy
    have hxw : xi < g.width := List.mem_range.mp hxi
    have ho' : ¬ g.oob ((g.width : Int) - 1 - ↑xi) ↑y :=
      not_oob_of_bounds (by omega) (by omega) (by omega) (by omega)
    exact pairCells_out hpair _ (g.idx_lt hwf ho')
      (idx_ne_of_ne ho' hoab (pt_ne_of_y (by omega)))
      (idx_ne_of_ne ho' hoa1b (pt_ne_of_y (by omega)))
  obtain ⟨sk1, hpre⟩ := foldl_lines_zero (d := .RIGHT)
    ((List.range b).map
      (fun (y : Nat) => (List.range g.width).map
        (fun (xi : Nat) => ((g.width : Int) - 1 - (xi : Int), (y : Int)))))
    ⟨g, 0, false, false⟩ hzpre
  rw [hpre, show ({ (⟨g, 0, false, false⟩ : MState) with skipMerge := sk1 })
      = (⟨g, 0, sk1, false⟩ : MState) from rfl]
  obtain ⟨g2, hrow, hsh2, hone⟩ := foldLine_pair_right hwf ha hb hv hv31 hpair sk1
  rw [hrow]
  have hzpost : ∀ L ∈ ((List.range (g.height - b - 1)).map (fun k => b + 1 + k)).map
      (fun (y : Nat) => (List.range g.width).map
        (fun (xi : Nat) => ((g.width : Int) - 1 - (xi : Int), (y : Int)))),
      ∀ p ∈ L, g2.cells.getD (g2.idx p.1 p.2) 0 = 0 := by
    intro L hL p hp
    rw [List.map_map] at hL
    obtain ⟨k, hk, rfl⟩ := List.mem_map.mp hL
    obtain ⟨xi, hxi, rfl⟩ := List.mem_map.mp hp
    have hkb : k < g.height - b - 1 := List.mem_range.mp hk
    have hxw : xi < g.width := List.mem_range.mp hxi
    have ho' : ¬ g.oob ((g.width : Int) - 1 - ↑xi) ↑(b + 1 + k) :=
      not_oob_of_bounds (by omega) (by omega) (by omega) (by omega)
    show g2.cells.getD (g2.idx ((g.width : Int) - 1 - ↑xi) ↑(b + 1 + k)) 0 = 0
    rw [idx_of_sameShape hsh2,
      hone _ (by rw [hsh2.2.2.2]; exact g.idx_lt hwf ho'), if_neg]
    exact idx_ne_of_ne ho' hoeb (pt_ne_of_y (by push_cast; omega))
  obtain ⟨sk2, hpost⟩ := foldl_lines_zero (d := .RIGHT)
    (((List.range (g.height - b - 1)).map (fun k => b + 1 + k)).map
      (fun (y : Nat) => (List.range g.width).map
        (fun (xi : Nat) => ((g.width : Int) - 1 - (xi : Int), (y : Int)))))
    ⟨g2, 2 * v, true, true⟩ hzpost
  rw [hpost]
  exact ⟨g2, rfl, hsh2, hone⟩

/-- The slide of the upper tile of an isolated vertical pair in
direction UP: it lands on the top edge (or stays put when already
there), reporting no merge. -/
theorem mover_up {g : Grid} {v : Int} {a b : Nat} (hwf : g.WF)
    (ha : a < g.width) (hb : b + 1 < g.height) (hv : v ≠ 0)
    (hpair : pairCells g.cells (g.idx ↑a ↑b) (g.idx ↑a (↑b + 1)) v) :
    ∃ r gA, g.slide ↑a ↑b .UP false = .ok (r, gA) ∧ r ≤ 0 ∧
      sameShape g gA ∧ pairCells gA.cells (g.idx ↑a 0) (g.idx ↑a (↑b + 1)) v := by
  have hoab : ¬ g.oob ↑a ↑b :=
    not_oob_of_bounds (by omega) (by omega) (by omega) (by omega)
  have hoab1 : ¬ g.oob ↑a (↑b + 1) :=
    not_oob_of_bounds (by omega) (by omega) (by omega) (by omega)
  have hoa0 : ¬ g.oob ↑a 0 :=
    not_oob_of_bounds (by omega) (by omega) (by omega) (by omega)
  have hcur : g.cells.getD (g.idx ↑a ↑b) 0 = v :=
    pairCells_at1 hpair (g.idx_lt hwf hoab)
  have hget : g.get ↑a ↑b = .ok v := by
    rw [Grid.get_of_not_oob hoab, hcur]
  have hslide := slide_of_get_ok (d := .UP) (s := false) hget
  rw [if_neg hv] at hslide
  have hrun : slideLoop g ↑a ↑b .UP false v 1 (g.width + g.height)
      = slideStop g ↑a ↑b .UP v (↑b + 1) := by
    apply slideLoop_runs_to_stop (g.width + g.height) 1 (↑b + 1)
      (by omega) (by omega)
    · intro j hj1 hj2
      show g.get ↑a (↑b - j) = .ok 0
      have ho' : ¬ g.oob ↑a (↑b - j) :=
        not_oob_of_bounds (by omega) (by omega) (by omega) (by omega)
      rw [Grid.get_of_not_oob ho']
      congr 1
      exact pairCells_out hpair _ (g.idx_lt hwf ho')
        (idx_ne_y ho' hoab (by omega)) (idx_ne_y ho' hoab1 (by omega))
    · refine ⟨.outOfRange, ?_⟩
      show g.get ↑a (↑b - (↑b + 1)) = .error .outOfRange
      exact Grid.get_of_oob (by unfold Grid.oob; omega)
  rw [hrun] at hslide
  refine ⟨(slideStop g ↑a ↑b .UP v (↑b + 1)).1,
    (slideStop g ↑a ↑b .UP v (↑b + 1)).2, hslide, ?_, ?_, ?_⟩
  · unfold slideStop
    split <;> norm_num
  · exact sameShape_slideStop ..
  · by_cases hgt : (1 : Int) < ↑b + 1
    · have hstop : slideStop g ↑a ↑b .UP v (↑b + 1)
          = (0, (g.setCell ↑a 0 v).setCell ↑a ↑b 0) := by
        unfold slideStop
        rw [if_pos hgt]
        unfold Grid.setDire
        simp [sub_self]
      rw [hstop]
      have n01 : g.idx ↑a 0 ≠ g.idx ↑a ↑b := idx_ne_y hoa0 hoab (by omega)
      have n02 : g.idx ↑a 0 ≠ g.idx ↑a (↑b + 1) := idx_ne_y hoa0 hoab1 (by omega)
      have n12 : g.idx ↑a ↑b ≠ g.idx ↑a (↑b + 1) := idx_ne_y hoab hoab1 (by omega)
      intro j hj
      have hlen : j < g.cells.length := by simpa using hj
      rw [getD_setCell 0 (WF_setCell hwf ↑a 0 v)
        (by rw [oob_setCell]; exact hoab) j, idx_setCell,
        getD_setCell v hwf hoa0 j]
      by_cases hj1 : j = g.idx ↑a ↑b
      · have hnor : ¬(j = g.idx ↑a 0 ∨ j = g.idx ↑a (↑b + 1)) := by
          rintro (h | h)
          · exact n01 (h.symm.trans hj1)
          · exact n12 ((h.symm.trans hj1).symm)
        rw [if_pos hj1, if_neg hnor]
      · rw [if_neg hj1]
        by_cases hj0 : j = g.idx ↑a 0
        · rw [if_pos hj0, if_pos (Or.inl hj0)]
        · rw [if_neg hj0]
          by_cases hj2 : j = g.idx ↑a (↑b + 1)
          · rw [if_pos (Or.inr hj2), hj2]
            exact pairCells_at2 hpair (g.idx_lt hwf hoab1)
          · rw [if_neg (by rintro (h | h); exacts [hj0 h, hj2 h])]
            exact pairCells_out hpair j hlen hj1 hj2
    · have haz : (↑b : Int) = 0 := by omega
      have hstop : slideStop g ↑a ↑b .UP v (↑b + 1) = (-1, g) := by
        unfold slideStop
        rw [if_neg hgt]
      rw [hstop, show g.idx ↑a 0 = g.idx ↑a ↑b by rw [haz]]
      exact hpair

/-- The slide of the lower tile of the pair after the upper tile has
settled on the top edge: it merges into the edge tile. -/
theorem merger_up {g gA : Grid} {v : Int} {a b : Nat} (hwf : g.WF)
    (hsh : sameShape g gA) (ha : a < g.width) (hb : b + 1 < g.height)
    (hv0 : 0 < v) (hv31 : 2 * v < 2 ^ 31)
    (hpa : pairCells gA.cells (g.idx ↑a 0) (g.idx ↑a (↑b + 1)) v) :
    ∃ g2, gA.slide ↑a (↑b + 1) .UP false = .ok (2 * v, g2) ∧
      sameShape g g2 ∧ oneCell g2.cells (g.idx ↑a 0) (2 * v) := by
  have hv : v ≠ 0 := by omega
  have hwfA : gA.WF := WF_of_sameShape hwf hsh
  have hoab1 : ¬ g.oob ↑a (↑b + 1) :=
    not_oob_of_bounds (by omega) (by omega) (by omega) (by omega)
  have hoa0 : ¬ g.oob ↑a 0 :=
    not_oob_of_bounds (by omega) (by omega) (by omega) (by omega)
  have hoab1A : ¬ gA.oob ↑a (↑b + 1) := by
    rw [oob_of_sameShape hsh]
    exact hoab1
  have hoa0A : ¬ gA.oob ↑a 0 := by
    rw [oob_of_sameShape hsh]
    exact hoa0
  have hlenA : gA.cells.length = g.cells.length := hsh.2.2.2
  have hcur : gA.cells.getD (g.idx ↑a (↑b + 1)) 0 = v :=
    pairCells_at2 hpa (by rw [hlenA]; exact g.idx_lt hwf hoab1)
  have hget : gA.get ↑a (↑b + 1) = .ok v := by
    rw [Grid.get_of_not_oob hoab1A, idx_of_sameShape hsh, hcur]
  have hslide := slide_of_get_ok (d := .UP) (s := false) hget
  rw [if_neg hv] at hslide
  have hw := hsh.1
  have hh := hsh.2.1
  have hrun := slideLoop_runs_to_hit (g := gA) (x := ↑a) (y := ↑b + 1)
    (d := .UP) (s := false) (c := v)
    (gA.width + gA.height) 1 (↑b + 1) v (by omega) (by omega)
    (?_ : ∀ j : Int, 1 ≤ j → j < ↑b + 1 → gA.getDire ↑a (↑b + 1) .UP j = .ok 0)
    (?_ : gA.getDire ↑a (↑b + 1) .UP (↑b + 1) = .ok v) hv
  rotate_left
  · intro j hj1 hj2
    show gA.get ↑a (↑b + 1 - j) = .ok 0
    have ho' : ¬ g.oob ↑a (↑b + 1 - j) :=
      not_oob_of_bounds (by omega) (by omega) (by omega) (by omega)
    have ho'A : ¬ gA.oob ↑a (↑b + 1 - j) := by
      rw [oob_of_sameShape hsh]
      exact ho'
    rw [Grid.get_of_not_oob ho'A, idx_of_sameShape hsh]
    congr 1
    exact pairCells_out hpa _ (by rw [hlenA]; exact g.idx_lt hwf ho')
      (idx_ne_y ho' hoa0 (by omega)) (idx_ne_y ho' hoab1 (by omega))
  · show gA.get ↑a (↑b + 1 - (↑b + 1)) = .ok v
    rw [show (↑b + 1 - (↑b + 1) : Int) = 0 by ring]
    rw [Grid.get_of_not_oob hoa0A, idx_of_sameShape hsh]
    congr 1
    exact pairCells_at1 hpa (by rw [hlenA]; exact g.idx_lt hwf hoa0)
  rw [if_neg (by simp), if_pos rfl] at hrun
  rw [toInt32_eq_self (by omega) hv31] at hrun
  rw [hrun] at hslide
  have hsd : gA.setDire ↑a (↑b + 1) .UP (↑b + 1) (2 * v)
      = gA.setCell ↑a 0 (2 * v) := by
    unfold Grid.setDire
    simp
  rw [hsd] at hslide
  refine ⟨(gA.setCell ↑a 0 (2 * v)).setCell ↑a (↑b + 1) 0, hslide, ?_, ?_⟩
  · exact sameShape_trans hsh
      (sameShape_trans (sameShape_setCell ..) (sameShape_setCell ..))
  · have n02 : g.idx ↑a 0 ≠ g.idx ↑a (↑b + 1) := idx_ne_y hoa0 hoab1 (by omega)
    intro j hj
    have hlen : j < g.cells.length := by
      rw [← hlenA]
      simpa using hj
    rw [getD_setCell 0 (WF_setCell hwfA ↑a 0 (2 * v))
      (by rw [oob_setCell]; exact hoab1A) j, idx_setCell,
      getD_setCell (2 * v) hwfA hoa0A j,
      idx_of_sameShape hsh ↑a (↑b + 1), idx_of_sameShape hsh ↑a 0]
    by_cases hj2 : j = g.idx ↑a (↑b + 1)
    · rw [if_pos hj2, if_neg (fun h : j = g.idx ↑a 0 => n02 (h.symm.trans hj2))]
    · rw [if_neg hj2]
      by_cases hj0 : j = g.idx ↑a 0
      · rw [if_pos hj0, if_pos hj0]
      · rw [if_neg hj0, if_neg hj0]
        exact pairCells_out hpa j (by rw [hlenA]; exact hlen) hj0 hj2

/-- Folding the whole pair column in direction UP. -/
theorem foldLine_pair_up {g : Grid} {v : Int} {a b : Nat} (hwf : g.WF)
    (ha : a < g.width) (hb : b + 1 < g.height) (hv : 0 < v)
    (hv31 : 2 * v < 2 ^ 31)
    (hpair : pairCells g.cells (g.idx ↑a ↑b) (g.idx ↑a (↑b + 1)) v)
    (sk0 : Bool) :
    ∃ g2, foldLine .UP ⟨g, 0, sk0, false⟩
        ((List.range g.height).map (fun (y : Nat) => ((a : Int), (y : Int))))
        = ⟨g2, 2 * v, true, true⟩ ∧
      sameShape g g2 ∧ oneCell g2.cells (g.idx ↑a 0) (2 * v) := by
  have hoab : ¬ g.oob ↑a ↑b :=
    not_oob_of_bounds (by omega) (by omega) (by omega) (by omega)
  have hoab1 : ¬ g.oob ↑a (↑b + 1) :=
    not_oob_of_bounds (by omega) (by omega) (by omega) (by omega)
  obtain ⟨r, gA, hsl, hr, hshA, hpA⟩ := mover_up hwf ha hb (by omega) hpair
  obtain ⟨g2, hsl2, hsh2, hone⟩ := merger_up hwf hshA ha hb hv hv31 hpA
  have hwf2 : g2.WF := WF_of_sameShape hwf hsh2
  show ∃ g2, List.foldl (mergeStep .UP) ⟨g, 0, false, false⟩
      ((List.range g.height).map (fun (y : Nat) => ((a : Int), (y : Int))))
      = ⟨g2, 2 * v, true, true⟩ ∧
    sameShape g g2 ∧ oneCell g2.cells (g.idx ↑a 0) (2 * v)
  rw [range_split2 b g.height hb]
  simp only [List.map_append, List.map_cons, List.foldl_append, List.foldl_cons]
  have hP1 : List.foldl (mergeStep .UP) ⟨g, 0, false, false⟩
      ((List.range b).map (fun (y : Nat) => ((a : Int), (y : Int))))
      = ⟨g, 0, false, false⟩ := by
    apply foldl_const
    intro p hp
    obtain ⟨y, hy, rfl⟩ := List.mem_map.mp hp
    have hyb : y < b := List.mem_range.mp hy
    have ho' : ¬ g.oob ↑a ↑y :=
      not_oob_of_bounds (by omega) (by omega) (by omega) (by omega)
    exact mergeStep_of_zero_cell
      (pairCells_out hpair _ (g.idx_lt hwf ho')
        (idx_ne_y ho' hoab (by omega)) (idx_ne_y ho' hoab1 (by omega)))
  rw [hP1]
  have hstA : mergeStep .UP ⟨g, 0, false, false⟩ (↑a, ↑b)
      = ⟨gA, 0, false, if 0 ≤ r then true else false⟩ := by
    rw [mergeStep_of_slide_ok hsl]
    simp only [if_neg (show ¬ (0 : Int) < r by omega)]
  rw [hstA]
  rw [show ((b + 1 : Nat) : Int) = (b : Int) + 1 by push_cast; ring]
  have hstB : mergeStep .UP ⟨gA, 0, false, if 0 ≤ r then true else false⟩
      (↑a, ↑b + 1) = ⟨g2, 2 * v, true, true⟩ := by
    rw [mergeStep_of_slide_ok hsl2]
    have h1 : (0 : Int) < 2 * v := by linarith
    simp [h1, le_of_lt h1]
  rw [hstB]
  refine ⟨g2, ?_, hsh2, hone⟩
  apply foldl_const
  intro p hp
  rw [List.map_map] at hp
  obtain ⟨k, hk, rfl⟩ := List.mem_map.mp hp
  have hkr : k < g.height - b - 2 := List.mem_range.mp hk
  have ho' : ¬ g.oob ↑a ↑(b + 2 + k) :=
    not_oob_of_bounds (by omega) (by omega) (by omega) (by omega)
  apply mergeStep_of_zero_cell
  show g2.cells.getD (g2.idx ↑a ↑(b + 2 + k)) 0 = 0
  rw [idx_of_sameShape hsh2,
    hone _ (by rw [hsh2.2.2.2]; exact g.idx_lt hwf ho'), if_neg]
  have hoa0 : ¬ g.oob ↑a 0 :=
    not_oob_of_bounds (by omega) (by omega) (by omega) (by omega)
  exact idx_ne_y ho' hoa0 (by push_cast; omega)

/-- `only_merge` UP on a grid holding exactly one isolated vertical
pair: the pair merges to a single doubled tile on the top edge of its
column. -/
theorem only_merge_pair_up {g : Grid} {v : Int} {a b : Nat} (hwf : g.WF)
    (ha : a < g.width) (hb : b + 1 < g.height) (hv : 0 < v)
    (hv31 : 2 * v < 2 ^ 31)
    (hpair : pairCells g.cells (g.idx ↑a ↑b) (g.idx ↑a (↑b + 1)) v) :
    ∃ gF, g.only_merge .UP = (2 * v, true, gF) ∧ sameShape g gF ∧
      oneCell gF.cells (g.idx ↑a 0) (2 * v) := by
  have hoab : ¬ g.oob ↑a ↑b :=
    not_oob_of_bounds (by omega) (by omega) (by omega) (by omega)
  have hoab1 : ¬ g.oob ↑a (↑b + 1) :=
    not_oob_of_bounds (by omega) (by omega) (by omega) (by omega)
  have hoa0 : ¬ g.oob ↑a 0 :=
    not_oob_of_bounds (by omega) (by omega) (by omega) (by omega)
  unfold Grid.only_merge
  rw [scanLines_UP, range_split a g.width ha]
  simp only [List.map_append, List.map_cons, List.foldl_append, List.foldl_cons]
  have hzpre : ∀ L ∈ (List.range a).map
      (fun (x : Nat) => (List.range g.height).map (fun (y : Nat) => ((x : Int), (y : Int)))),
      ∀ p ∈ L, g.cells.getD (g.idx p.1 p.2) 0 = 0 := by
    intro L hL p hp
    obtain ⟨x, hx, rfl⟩ := List.mem_map.mp hL
    obtain ⟨y, hy, rfl⟩ := List.mem_map.mp hp
    have hxa : x < a := List.mem_range.mp hx
    have hyh : y < g.height := List.mem_range.mp hy
    have ho' : ¬ g.oob ↑x ↑y :=
      not_oob_of_bounds (by omega) (by omega) (by omega) (by omega)
    exact pairCells_out hpair _ (g.idx_lt hwf ho')
      (idx_ne_of_ne ho' hoab (pt_ne_of_x (by omega)))
      (idx_ne_of_ne ho' hoab1 (pt_ne_of_x (by omega)))
  obtain ⟨sk1, hpre⟩ := foldl_lines_zero (d := .UP)
    ((List.range a).map
      (fun (x : Nat) => (List.range g.height).map (fun (y : Nat) => ((x : Int), (y : Int)))))
    ⟨g, 0, false, false⟩ hzpre
  rw [hpre, show ({ (⟨g, 0, false, false⟩ : MState) with skipMerge := sk1 })
      = (⟨g, 0, sk1, false⟩ : MState) from rfl]
  obtain ⟨g2, hrow, hsh2, hone⟩ := foldLine_pair_up hwf ha hb hv hv31 hpair sk1
  rw [hrow]
  have hzpost : ∀ L ∈ ((List.range (g.width - a - 1)).map (fun k => a + 1 + k)).map
      (fun (x : Nat) => (List.range g.height).map (fun (y : Nat) => ((x : Int), (y : Int)))),
      ∀ p ∈ L, g2.cells.getD (g2.idx p.1 p.2) 0 = 0 := by
    intro L hL p hp
    rw [List.map_map] at hL
    obtain ⟨k, hk, rfl⟩ := List.mem_map.mp hL
    obtain ⟨y, hy, rfl⟩ := List.mem_map.mp hp
    have hka : k < g.width - a - 1 := List.mem_range.mp hk
    have hyh : y < g.height := List.mem_range.mp hy
    have ho' : ¬ g.oob ↑(a + 1 + k) ↑y :=
      not_oob_of_bounds (by omega) (by omega) (by omega) (by omega)
    show g2.cells.getD (g2.idx ↑(a + 1 + k) ↑y) 0 = 0
    rw [idx_of_sameShape hsh2,
      hone _ (by rw [hsh2.2.2.2]; exact g.idx_lt hwf ho'), if_neg]
    exact idx_ne_of_ne ho' hoa0 (pt_ne_of_x (by push_cast; omega))
  obtain ⟨sk2, hpost⟩ := foldl_lines_zero (d := .UP)
    (((List.range (g.width - a - 1)).map (fun k => a + 1 + k)).map
      (fun (x : Nat) => (List.range g.height).map (fun (y : Nat) => ((x : Int), (y : Int)))))
    ⟨g2, 2 * v, true, true⟩ hzpost
  rw [hpost]
  exact ⟨g2, rfl, hsh2, hone⟩

/-- The slide of the lower tile of an isolated vertical pair in
direction DOWN: it lands on the bottom edge (or stays put when already
there), reporting no merge. -/
theorem mover_down {g : Grid} {v : Int} {a b : Nat} (hwf : g.WF)
    (ha : a < g.width) (hb : b + 1 < g.height) (hv : v ≠ 0)
    (hpair : pairCells g.cells (g.idx ↑a ↑b) (g.idx ↑a (↑b + 1)) v) :
    ∃ r gA, g.slide ↑a (↑b + 1) .DOWN false = .ok (r, gA) ∧ r ≤ 0 ∧
      sameShape g gA ∧
      pairCells gA.cells (g.idx ↑a ↑b) (g.idx ↑a ((g.height : Int) - 1)) v := by
  have hoab : ¬ g.oob ↑a ↑b :=
    not_oob_of_bounds (by omega) (by omega) (by omega) (by omega)
  have hoab1 : ¬ g.oob ↑a (↑b + 1) :=
    not_oob_of_bounds (by omega) (by omega) (by omega) (by omega)
  have hoae : ¬ g.oob ↑a ((g.height : Int) - 1) :=
    not_oob_of_bounds (by omega) (by omega) (by omega) (by omega)
  have hcur : g.cells.getD (g.idx ↑a (↑b + 1)) 0 = v :=
    pairCells_at2 hpair (g.idx_lt hwf hoab1)
  have hget : g.get ↑a (↑b + 1) = .ok v := by
    rw [Grid.get_of_not_oob hoab1, hcur]
  have hslide := slide_of_get_ok (d := .DOWN) (s := false) hget
  rw [if_neg hv] at hslide
  have hrun : slideLoop g ↑a (↑b + 1) .DOWN false v 1 (g.width + g.height)
      = slideStop g ↑a (↑b + 1) .DOWN v ((g.height : Int) - ↑b - 1) := by
    apply slideLoop_runs_to_stop (g.width + g.height) 1 ((g.height : Int) - ↑b - 1)
      (by omega) (by omega)
    · intro j hj1 hj2
      show g.get ↑a (↑b + 1 + j) = .ok 0
      have ho' : ¬ g.oob ↑a (↑b + 1 + j) :=
        not_oob_of_bounds (by omega) (by omega) (by omega) (by omega)
      rw [Grid.get_of_not_oob ho']
      congr 1
      exact pairCells_out hpair _ (g.idx_lt hwf ho')
        (idx_ne_y ho' hoab (by omega)) (idx_ne_y ho' hoab1 (by omega))
    · refine ⟨.outOfRange, ?_⟩
      show g.get ↑a (↑b + 1 + ((g.height : Int) - ↑b - 1)) = .error .outOfRange
      exact Grid.get_of_oob (by unfold Grid.oob; omega)
  rw [hrun] at hslide
  refine ⟨(slideStop g ↑a (↑b + 1) .DOWN v ((g.height : Int) - ↑b - 1)).1,
    (slideStop g ↑a (↑b + 1) .DOWN v ((g.height : Int) - ↑b - 1)).2, hslide, ?_, ?_, ?_⟩
  · unfold slideStop
    split <;> norm_num
  · exact sameShape_slideStop ..
  · by_cases hgt : (1 : Int) < (g.height : Int) - ↑b - 1
    · have hstop : slideStop g ↑a (↑b + 1) .DOWN v ((g.height : Int) - ↑b - 1)
          = (0, (g.setCell ↑a ((g.height : Int) - 1) v).setCell ↑a (↑b + 1) 0) := by
        unfold slideStop
        rw [if_pos hgt]
        unfold Grid.setDire
        have hds : (↑b + 1 + ((g.height : Int) - ↑b - 1 - 1)) = (g.height : Int) - 1 := by
          ring
        simp [hds]
      rw [hstop]
      have n1e : g.idx ↑a ↑b ≠ g.idx ↑a ((g.height : Int) - 1) :=
        idx_ne_y hoab hoae (by omega)
      have n2e : g.idx ↑a (↑b + 1) ≠ g.idx ↑a ((g.height : Int) - 1) :=
        idx_ne_y hoab1 hoae (by omega)
      have n12 : g.idx ↑a ↑b ≠ g.idx ↑a (↑b + 1) := idx_ne_y hoab hoab1 (by omega)
      intro j hj
      have hlen : j < g.cells.length := by simpa using hj
      rw [getD_setCell 0 (WF_setCell hwf ↑a ((g.height : Int) - 1) v)
        (by rw [oob_setCell]; exact hoab1) j, idx_setCell,
        getD_setCell v hwf hoae j]
      by_cases hj2 : j = g.idx ↑a (↑b + 1)
      · have hnor : ¬(j = g.idx ↑a ↑b ∨ j = g.idx ↑a ((g.height : Int) - 1)) := by
          rintro (h | h)
          · exact n12 (h.symm.trans hj2)
          · exact n2e (hj2.symm.trans h)
        rw [if_pos hj2, if_neg hnor]
      · rw [if_neg hj2]
        by_cases hje : j = g.idx ↑a ((g.height : Int) - 1)
        · rw [if_pos hje, if_pos (Or.inr hje)]
        · rw [if_neg hje]
          by_cases hj1 : j = g.idx ↑a ↑b
          · rw [if_pos (Or.inl hj1), hj1]
            exact pairCells_at1 hpair (g.idx_lt hwf hoab)
          · rw [if_neg (by rintro (h | h); exacts [hj1 h, hje h])]
            exact pairCells_out hpair j hlen hj1 hj2
    · have haz : (↑b : Int) + 1 = (g.height : Int) - 1 := by omega
      have hstop : slideStop g ↑a (↑b + 1) .DOWN v ((g.height : Int) - ↑b - 1)
          = (-1, g) := by
        unfold slideStop
        rw [if_neg hgt]
      rw [hstop, show g.idx ↑a ((g.height : Int) - 1) = g.idx ↑a (↑b + 1) by rw [haz]]
      exact hpair

/-- The slide of the upper tile of the pair after the lower tile has
settled on the bottom edge: it merges into the edge tile. -/
theorem merger_down {g gA : Grid} {v : Int} {a b : Nat} (hwf : g.WF)
    (hsh : sameShape g gA) (ha : a < g.width) (hb : b + 1 < g.height)
    (hv0 : 0 < v) (hv31 : 2 * v < 2 ^ 31)
    (hpa : pairCells gA.cells (g.idx ↑a ↑b) (g.idx ↑a ((g.height : Int) - 1)) v) :
    ∃ g2, gA.slide ↑a ↑b .DOWN false = .ok (2 * v, g2) ∧
      sameShape g g2 ∧ oneCell g2.cells (g.idx ↑a ((g.height : Int) - 1)) (2 * v) := by
  have hv : v ≠ 0 := by omega
  have hwfA : gA.WF := WF_of_sameShape hwf hsh
  have hoab : ¬ g.oob ↑a ↑b :=
    not_oob_of_bounds (by omega) (by omega) (by omega) (by omega)
  have hoae : ¬ g.oob ↑a ((g.height : Int) - 1) :=
    not_oob_of_bounds (by omega) (by omega) (by omega) (by omega)
  have hoabA : ¬ gA.oob ↑a ↑b := by
    rw [oob_of_sameShape hsh]
    exact hoab
  have hoaeA : ¬ gA.oob ↑a ((g.height : Int) - 1) := by
    rw [oob_of_sameShape hsh]
    exact hoae
  have hlenA : gA.cells.length = g.cells.length := hsh.2.2.2
  have hcur : gA.cells.getD (g.idx ↑a ↑b) 0 = v :=
    pairCells_at1 hpa (by rw [hlenA]; exact g.idx_lt hwf hoab)
  have hget : gA.get ↑a ↑b = .ok v := by
    rw [Grid.get_of_not_oob hoabA, idx_of_sameShape hsh, hcur]
  have hslide := slide_of_get_ok (d := .DOWN) (s := false) hget
  rw [if_neg hv] at hslide
  have hw := hsh.1
  have hh := hsh.2.1
  have hrun := slideLoop_runs_to_hit (g := gA) (x := ↑a) (y := ↑b)
    (d := .DOWN) (s := false) (c := v)
    (gA.width + gA.height) 1 ((g.height : Int) - 1 - ↑b) v (by omega) (by omega)
    (?_ : ∀ j : Int, 1 ≤ j → j < (g.height : Int) - 1 - ↑b →
      gA.getDire ↑a ↑b .DOWN j = .ok 0)
    (?_ : gA.getDire ↑a ↑b .DOWN ((g.height : Int) - 1 - ↑b) = .ok v) hv
  rotate_left
  · intro j hj1 hj2
    show gA.get ↑a (↑b + j) = .ok 0
    have ho' : ¬ g.oob ↑a (↑b + j) :=
      not_oob_of_bounds (by omega) (by omega) (by omega) (by omega)
    have ho'A : ¬ gA.oob ↑a (↑b + j) := by
      rw [oob_of_sameShape hsh]
      exact ho'
    rw [Grid.get_of_not_oob ho'A, idx_of_sameShape hsh]
    congr 1
    exact pairCells_out hpa _ (by rw [hlenA]; exact g.idx_lt hwf ho')
      (idx_ne_y ho' hoab (by omega)) (idx_ne_y ho' hoae (by omega))
  · show gA.get ↑a (↑b + ((g.height : Int) - 1 - ↑b)) = .ok v
    rw [show (↑b + ((g.height : Int) - 1 - ↑b)) = (g.height : Int) - 1 by ring]
    rw [Grid.get_of_not_oob hoaeA, idx_of_sameShape hsh]
    congr 1
    exact pairCells_at2 hpa (by rw [hlenA]; exact g.idx_lt hwf hoae)
  rw [if_neg (by simp), if_pos rfl] at hrun
  rw [toInt32_eq_self (by omega) hv31] at hrun
  rw [hrun] at hslide
  have hsd : gA.setDire ↑a ↑b .DOWN ((g.height : Int) - 1 - ↑b) (2 * v)
      = gA.setCell ↑a ((g.height : Int) - 1) (2 * v) := by
    unfold Grid.setDire
    have hds2 : (↑b + ((g.height : Int) - 1 - ↑b)) = (g.height : Int) - 1 := by ring
    simp [hds2]
  rw [hsd] at hslide
  refine ⟨(gA.setCell ↑a ((g.height : Int) - 1) (2 * v)).setCell ↑a ↑b 0, hslide, ?_, ?_⟩
  · exact sameShape_trans hsh
      (sameShape_trans (sameShape_setCell ..) (sameShape_setCell ..))
  · have n1e : g.idx ↑a ↑b ≠ g.idx ↑a ((g.height : Int) - 1) :=
      idx_ne_y hoab hoae (by omega)
    intro j hj
    have hlen : j < g.cells.length := by
      rw [← hlenA]
      simpa using hj
    rw [getD_setCell 0 (WF_setCell hwfA ↑a ((g.height : Int) - 1) (2 * v))
      (by rw [oob_setCell]; exact hoabA) j, idx_setCell,
      getD_setCell (2 * v) hwfA hoaeA j,
      idx_of_sameShape hsh ↑a ↑b, idx_of_sameShape hsh ↑a ((g.height : Int) - 1)]
    by_cases hj1 : j = g.idx ↑a ↑b
    · rw [if_pos hj1,
        if_neg (fun h : j = g.idx ↑a ((g.height : Int) - 1) => n1e (hj1.symm.trans h))]
    · rw [if_neg hj1]
      by_cases hje : j = g.idx ↑a ((g.height : Int) - 1)
      · rw [if_pos hje, if_pos hje]
      · rw [if_neg hje, if_neg hje]
        exact pairCells_out hpa j (by rw [hlenA]; exact hlen) hj1 hje

/-- Folding the whole pair column in direction DOWN. -/
theorem foldLine_pair_down {g : Grid} {v : Int} {a b : Nat} (hwf : g.WF)
    (ha : a < g.width) (hb : b + 1 < g.height) (hv : 0 < v)
    (hv31 : 2 * v < 2 ^ 31)
    (hpair : pairCells g.cells (g.idx ↑a ↑b) (g.idx ↑a (↑b + 1)) v)
    (sk0 : Bool) :
    ∃ g2, foldLine .DOWN ⟨g, 0, sk0, false⟩
        ((List.range g.height).map
          (fun (yi : Nat) => ((a : Int), (g.height : Int) - 1 - (yi : Int))))
        = ⟨g2, 2 * v, true, true⟩ ∧
      sameShape g g2 ∧ oneCell g2.cells (g.idx ↑a ((g.height : Int) - 1)) (2 * v) := by
  have hoab : ¬ g.oob ↑a ↑b :=
    not_oob_of_bounds (by omega) (by omega) (by omega) (by omega)
  have hoab1 : ¬ g.oob ↑a (↑b + 1) :=
    not_oob_of_bounds (by omega) (by omega) (by omega) (by omega)
  have hoae : ¬ g.oob ↑a ((g.height : Int) - 1) :=
    not_oob_of_bounds (by omega) (by omega) (by omega) (by omega)
  obtain ⟨r, gA, hsl, hr, hshA, hpA⟩ := mover_down hwf ha hb (by omega) hpair
  obtain ⟨g2, hsl2, hsh2, hone⟩ := merger_down hwf hshA ha hb hv hv31 hpA
  have hwf2 : g2.WF := WF_of_sameShape hwf hsh2
  show ∃ g2, List.foldl (mergeStep .DOWN) ⟨g, 0, false, false⟩
      ((List.range g.height).map
        (fun (yi : Nat) => ((a : Int), (g.height : Int) - 1 - (yi : Int))))
      = ⟨g2, 2 * v, true, true⟩ ∧
    sameShape g g2 ∧ oneCell g2.cells (g.idx ↑a ((g.height : Int) - 1)) (2 * v)
  rw [range_split2 (g.height - b - 2) g.height (by omega)]
  simp only [List.map_append, List.map_cons, List.foldl_append, List.foldl_cons]
  have hP1 : List.foldl (mergeStep .DOWN) ⟨g, 0, false, false⟩
      ((List.range (g.height - b - 2)).map
        (fun (yi : Nat) => ((a : Int), (g.height : Int) - 1 - (yi : Int))))
      = ⟨g, 0, false, false⟩ := by
    apply foldl_const
    intro p hp
    obtain ⟨yi, hyi, rfl⟩ := List.mem_map.mp hp
    have hya : yi < g.height - b - 2 := List.mem_range.mp hyi
    have ho' : ¬ g.oob ↑a ((g.height : Int) - 1 - ↑yi) :=
      not_oob_of_bounds (by omega) (by omega) (by omega) (by omega)
    exact mergeStep_of_zero_cell
      (pairCells_out hpair _ (g.idx_lt hwf ho')
        (idx_ne_y ho' hoab (by omega)) (idx_ne_y ho' hoab1 (by omega)))
  rw [hP1]
  rw [show ((g.height : Int) - 1 - ↑(g.height - b - 2)) = ↑b + 1 by omega]
  have hstA : mergeStep .DOWN ⟨g, 0, false, false⟩ (↑a, ↑b + 1)
      = ⟨gA, 0, false, if 0 ≤ r then true else false⟩ := by
    rw [mergeStep_of_slide_ok hsl]
    simp only [if_neg (show ¬ (0 : Int) < r by omega)]
  rw [hstA]
  rw [show ((g.height : Int) - 1 - ↑(g.height - b - 2 + 1)) = ↑b by omega]
  have hstB : mergeStep .DOWN ⟨gA, 0, false, if 0 ≤ r then true else false⟩
      (↑a, ↑b) = ⟨g2, 2 * v, true, true⟩ := by
    rw [mergeStep_of_slide_ok hsl2]
    have h1 : (0 : Int) < 2 * v := by linarith
    simp [h1, le_of_lt h1]
  rw [hstB]
  refine ⟨g2, ?_, hsh2, hone⟩
  apply foldl_const
  intro p hp
  rw [List.map_map] at hp
  obtain ⟨k, hk, rfl⟩ := List.mem_map.mp hp
  have hkr : k < g.height - (g.height - b - 2) - 2 := List.mem_range.mp hk
  have ho' : ¬ g.oob ↑a ((g.height : Int) - 1 - ↑(g.height - b - 2 + 2 + k)) :=
    not_oob_of_bounds (by omega) (by omega) (by omega) (by omega)
  apply mergeStep_of_zero_cell
  show g2.cells.getD
    (g2.idx ↑a ((g.height : Int) - 1 - ↑(g.height - b - 2 + 2 + k))) 0 = 0
  rw [idx_of_sameShape hsh2,
    hone _ (by rw [hsh2.2.2.2]; exact g.idx_lt hwf ho'), if_neg]
  exact idx_ne_y ho' hoae (by omega)

/-- `only_merge` DOWN on a grid holding exactly one isolated vertical
pair: the pair merges to a single doubled tile on the bottom edge of
its column. -/
theorem only_merge_pair_down {g : Grid} {v : Int} {a b : Nat} (hwf : g.WF)
    (ha : a < g.width) (hb : b + 1 < g.height) (hv : 0 < v)
    (hv31 : 2 * v < 2 ^ 31)
    (hpair : pairCells g.cells (g.idx ↑a ↑b) (g.idx ↑a (↑b + 1)) v) :
    ∃ gF, g.only_merge .DOWN = (2 * v, true, gF) ∧ sameShape g gF ∧
      oneCell gF.cells (g.idx ↑a ((g.height : Int) - 1)) (2 * v) := by
  have hoab : ¬ g.oob ↑a ↑b :=
    not_oob_of_bounds (by omega) (by omega) (by omega) (by omega)
  have hoab1 : ¬ g.oob ↑a (↑b + 1) :=
    not_oob_of_bounds (by omega) (by omega) (by omega) (by omega)
  have hoae : ¬ g.oob ↑a ((g.height : Int) - 1) :=
    not_oob_of_bounds (by omega) (by omega) (by omega) (by omega)
  unfold Grid.only_merge
  rw [scanLines_DOWN, range_split a g.width ha]
  simp only [List.map_append, List.map_cons, List.foldl_append, List.foldl_cons]
  have hzpre : ∀ L ∈ (List.range a).map
      (fun (x : Nat) => (List.range g.height).map
        (fun (yi : Nat) => ((x : Int), (g.height : Int) - 1 - (yi : Int)))),
      ∀ p ∈ L, g.cells.getD (g.idx p.1 p.2) 0 = 0 := by
    intro L hL p hp
    obtain ⟨x, hx, rfl⟩ := List.mem_map.mp hL
    obtain ⟨yi, hyi, rfl⟩ := List.mem_map.mp hp
    have hxa : x < a := List.mem_range.mp hx
    have hyh : yi < g.height := List.mem_range.mp hyi
    have ho' : ¬ g.oob ↑x ((g.height : Int) - 1 - ↑yi) :=
      not_oob_of_bounds (by omega) (by omega) (by omega) (by omega)
    exact pairCells_out hpair _ (g.idx_lt hwf ho')
      (idx_ne_of_ne ho' hoab (pt_ne_of_x (by omega)))
      (idx_ne_of_ne ho' hoab1 (pt_ne_of_x (by omega)))
  obtain ⟨sk1, hpre⟩ := foldl_lines_zero (d := .DOWN)
    ((List.range a).map
      (fun (x : Nat) => (List.range g.height).map
        (fun (yi : Nat) => ((x : Int), (g.height : Int) - 1 - (yi : Int)))))
    ⟨g, 0, false, false⟩ hzpre
  rw [hpre, show ({ (⟨g, 0, false, false⟩ : MState) with skipMerge := sk1 })
      = (⟨g, 0, sk1, false⟩ : MState) from rfl]
  obtain ⟨g2, hrow, hsh2, hone⟩ := foldLine_pair_down hwf ha hb hv hv31 hpair sk1
  rw [hrow]
  have hzpost : ∀ L ∈ ((List.range (g.width - a - 1)).map (fun k => a + 1 + k)).map
      (fun (x : Nat) => (List.range g.height).map
        (fun (yi : Nat) => ((x : Int), (g.height : Int) - 1 - (yi : Int)))),
      ∀ p ∈ L, g2.cells.getD (g2.idx p.1 p.2) 0 = 0 := by
    intro L hL p hp
    rw [List.map_map] at hL
    obtain ⟨k, hk, rfl⟩ := List.mem_map.mp hL
    obtain ⟨yi, hyi, rfl⟩ := List.mem_map.mp hp
    have hka : k < g.width - a - 1 := List.mem_range.mp hk
    have hyh : yi < g.height := List.mem_range.mp hyi
    have ho' : ¬ g.oob ↑(a + 1 + k) ((g.height : Int) - 1 - ↑yi) :=
      not_oob_of_bounds (by omega) (by omega) (by omega) (by omega)
    show g2.cells.getD (g2.idx ↑(a + 1 + k) ((g.height : Int) - 1 - ↑yi)) 0 = 0
    rw [idx_of_sameShape hsh2,
      hone _ (by rw [hsh2.2.2.2]; exact g.idx_lt hwf ho'), if_neg]
    exact idx_ne_of_ne ho' hoae (pt_ne_of_x (by push_cast; omega))
  obtain ⟨sk2, hpost⟩ := foldl_lines_zero (d := .DOWN)
    (((List.range (g.width - a - 1)).map (fun k => a + 1 + k)).map
      (fun (x : Nat) => (List.range g.height).map
        (fun (yi : Nat) => ((x : Int), (g.height : Int) - 1 - (yi : Int)))))
    ⟨g2, 2 * v, true, true⟩ hzpost
  rw [hpost]
  exact ⟨g2, rfl, hsh2, hone⟩

/-- C5 (amended): for every well-formed grid containing exactly two
non-zero cells, holding the same (positive) tile value `v` and
adjacent in a line — horizontally adjacent at `(a,b)`,`(a+1,b)` or
vertically adjacent at `(a,b)`,`(a,b+1)` — provided the merged value
`2v` fits the 32-bit `int` returned by `Grid::slide` (`2v < 2^31`,
true of every tile reachable in play), merging toward either end of
that line produces exactly one tile of value `2v` (on the
corresponding edge of the line), zero everywhere else, and
`only_merge` returns a score gain equal to the merged value `2v`
together with `anyMotion = true`.  Without the bound the program
truncates the returned value (see `merge_pair_2pow30_truncated_score`). -/
theorem merge_isolated_pair (g : Grid) (v : Int) (a b : Nat) (hwf : g.WF)
    (hv : 0 < v) (hv31 : 2 * v < 2 ^ 31) :
    (a + 1 < g.width → b < g.height →
      pairCells g.cells (g.idx ↑a ↑b) (g.idx (↑a + 1) ↑b) v →
      (∃ gF, g.only_merge .LEFT = (2 * v, true, gF) ∧
        oneCell gF.cells (g.idx 0 ↑b) (2 * v)) ∧
      (∃ gF, g.only_merge .RIGHT = (2 * v, true, gF) ∧
        oneCell gF.cells (g.idx ((g.width : Int) - 1) ↑b) (2 * v))) ∧
    (a < g.width → b + 1 < g.height →
      pairCells g.cells (g.idx ↑a ↑b) (g.idx ↑a (↑b + 1)) v →
      (∃ gF, g.only_merge .UP = (2 * v, true, gF) ∧
        oneCell gF.cells (g.idx ↑a 0) (2 * v)) ∧
      (∃ gF, g.only_merge .DOWN = (2 * v, true, gF) ∧
        oneCell gF.cells (g.idx ↑a ((g.height : Int) - 1)) (2 * v))) := by
  constructor
  · intro ha hb hpair
    exact ⟨(only_merge_pair_left hwf ha hb hv hv31 hpair).imp
        (fun gF h => ⟨h.1, h.2.2⟩),
      (only_merge_pair_right hwf ha hb hv hv31 hpair).imp
        (fun gF h => ⟨h.1, h.2.2⟩)⟩
  · intro ha hb hpair
    exact ⟨(only_merge_pair_up hwf ha hb hv hv31 hpair).imp
        (fun gF h => ⟨h.1, h.2.2⟩),
      (only_merge_pair_down hwf ha hb hv hv31 hpair).imp
        (fun gF h => ⟨h.1, h.2.2⟩)⟩

/-- Witness for C5: the horizontal pair of 2-tiles at `(1,2)`,`(2,2)`
of `gPairH` merged LEFT and RIGHT, and the vertical pair at
`(2,1)`,`(2,2)` of `gPairV` merged UP and DOWN. -/
theorem merge_isolated_pair_witness :
    ((∃ gF, gPairH.only_merge .LEFT = (4, true, gF) ∧
        oneCell gF.cells (gPairH.idx 0 2) 4) ∧
      (∃ gF, gPairH.only_merge .RIGHT = (4, true, gF) ∧
        oneCell gF.cells (gPairH.idx ((gPairH.width : Int) - 1) 2) 4)) ∧
    ((∃ gF, gPairV.only_merge .UP = (4, true, gF) ∧
        oneCell gF.cells (gPairV.idx 2 0) 4) ∧
      (∃ gF, gPairV.only_merge .DOWN = (4, true, gF) ∧
        oneCell gF.cells (gPairV.idx 2 ((gPairV.height : Int) - 1)) 4)) :=
  ⟨(merge_isolated_pair gPairH 2 1 2 (by unfold Grid.WF; rfl) (by decide)
        (by decide)).1
      (by decide) (by decide) (by unfold pairCells; decide),
    (merge_isolated_pair gPairV 2 2 1 (by unfold Grid.WF; rfl) (by decide)
        (by decide)).2
      (by decide) (by decide) (by unfold pairCells; decide)⟩

/-- C5 (counterexample to the claim as stated, over all tile values):
for the isolated pair of `2^30` tiles of `gPairBig`, merging LEFT does
merge the cells — the left edge of the row ends up holding `2^31` —
but `Grid::slide` returns the doubled value through its `int` return
type, where `2^31` wraps to `-2^31`; the negative `r` contributes
nothing, so `only_merge` returns score 0, not the merged value
`2v = 2^31` the claim demands. -/
theorem merge_pair_2pow30_truncated_score :
    (gPairBig.only_merge .LEFT).1 = 0 ∧
    (gPairBig.only_merge .LEFT).1 ≠ 2 * 2 ^ 30 ∧
    (gPairBig.only_merge .LEFT).2.2.cells.getD (gPairBig.idx 0 2) 0 = 2 ^ 31 :=
  ⟨by decide, by decide, by decide⟩
